import Mathlib

/-
Verification of the versioned-metadata engine: a shallow embedding of the
version-chain write path (app/services/meta_value_service.py,
app/services/term_service.py, app/services/utils.py), the static type
registry (app/core/meta_types.py), and the transaction-propagation
decorator (app/core/database.py).

Modelling conventions:
  * UUID primary keys are modelled as natural numbers drawn from a
    per-database fresh counter (`next_id`); the externally supplied
    key-or-id strings are compared against an id via its decimal
    rendering `Nat.repr`, standing for UUID string equality.
  * Timestamps (`utcnow()`) are natural numbers supplied by the caller;
    one call = one instant, and the real clock is monotone, which the
    theorems take as a hypothesis where they need it.
  * `json.dumps`/`json.loads` are modelled as the identity on a
    structured document type `Doc` that records exactly which keys the
    source writes into each JSON column.
  * SQLAlchemy `scalar_one_or_none` returns the unique matching row and
    raises `MultipleResultsFound` when several rows match; both the
    empty and the ambiguous outcome are modelled as `none` (every query
    the claims exercise is backed by a uniqueness constraint).
  * An async service function raising HTTPException(status, msg) is
    modelled as the `err` branch of `SvcResult`, which also carries the
    database state as of the raise so that no-mutation-on-failure is a
    provable statement rather than a modelling artifact.
-/

namespace MetaHub

/-- Kind of a meta value type (app/core/meta_types.py, `MetaTypeKind`). -/
inductive MetaTypeKind where
  | PRIMITIVE
  | STRING
  | CODESET
  | TAXONOMY
deriving DecidableEq, Repr

/-- String value of the enum member, as used by `item_type_kind.value`. -/
def MetaTypeKind.value : MetaTypeKind → String
  | .PRIMITIVE => "PRIMITIVE"
  | .STRING => "STRING"
  | .CODESET => "CODESET"
  | .TAXONOMY => "TAXONOMY"

/-- Parsing a kind string, as the `MetaTypeKind(...)` enum constructor
does; an unknown string raises ValueError in the source, modelled as
`none`. -/
def MetaTypeKind.ofString : String → Option MetaTypeKind
  | "PRIMITIVE" => some .PRIMITIVE
  | "STRING" => some .STRING
  | "CODESET" => some .CODESET
  | "TAXONOMY" => some .TAXONOMY
  | _ => none

/-- app/core/meta_types.py `MetaTypeDefinition` (fields used by the engine). -/
structure MetaTypeDefinition where
  code : String
  name : String
  kind : MetaTypeKind
deriving DecidableEq, Repr

/-- app/core/meta_types.py `MetaItemDefinition` (registry side). -/
structure MetaItemDefinition where
  code : String
  display_name : String
  type_code : String
  group_code : String
  is_required : Bool
  selection_mode : String
deriving DecidableEq, Repr

/-- app/core/meta_types.py `SYSTEM_META_TYPES`. -/
def SYSTEM_META_TYPES : List (String × MetaTypeDefinition) :=
  [("RETENTION_DAYS", ⟨"RETENTION_DAYS", "Retention (days)", .PRIMITIVE⟩),
   ("TABLE_DESCRIPTION", ⟨"TABLE_DESCRIPTION", "Table Description", .STRING⟩),
   ("PII_LEVEL_TYPE", ⟨"PII_LEVEL_TYPE", "PII Level", .CODESET⟩),
   ("DOMAIN", ⟨"DOMAIN", "Domain", .TAXONOMY⟩)]

/-- app/core/meta_types.py `SYSTEM_META_ITEMS`. -/
def SYSTEM_META_ITEMS : List (String × MetaItemDefinition) :=
  [("retention_days",
    ⟨"retention_days", "Retention Days", "RETENTION_DAYS", "BIZ_META", false, "SINGLE"⟩),
   ("table_description",
    ⟨"table_description", "Table Description", "TABLE_DESCRIPTION", "BIZ_META", false, "SINGLE"⟩),
   ("pii_level",
    ⟨"pii_level", "PII Level", "PII_LEVEL_TYPE", "BIZ_META", false, "SINGLE"⟩),
   ("domain",
    ⟨"domain", "Domain", "DOMAIN", "BIZ_META", false, "SINGLE"⟩)]

/-- app/core/meta_types.py `get_meta_type_kind`; ValueError becomes `none`. -/
def get_meta_type_kind (type_code : String) : Option MetaTypeKind :=
  (SYSTEM_META_TYPES.lookup type_code).map (·.kind)

/-- app/core/meta_types.py `get_meta_item_type_kind`; ValueError becomes `none`. -/
def get_meta_item_type_kind (item_code : String) : Option MetaTypeKind :=
  match SYSTEM_META_ITEMS.lookup item_code with
  | none => none
  | some d => get_meta_type_kind d.type_code

/-- An opaque, non-string JSON value (a primitive payload is passed through
the engine untouched, so its internal structure never matters). -/
structure JsonBlob where
  raw : String
deriving DecidableEq, Repr

/-- A JSON value that is either a string or any other JSON value; the
unified write path checks `isinstance(value, str)` on it. -/
inductive JAny where
  | jstr (s : String)
  | jother (b : JsonBlob)
deriving DecidableEq, Repr

/-- One entry of the enriched `terms` array written by `_enrich_value_data`. -/
structure TermInfo where
  term_id : Nat
  term_key : String
  display_name : String
  taxonomy_code : String
deriving DecidableEq, Repr

/-- A JSON document stored in the `value_json` Text column, recording
exactly the keys the source writes for each type tag.  `none` fields are
keys that are absent from the dict. -/
inductive Doc where
  | primitiveDoc (value : Option JAny)
  | stringDoc (value : String)
  | codesetDoc (code_id : Option Nat) (code_key : Option String)
      (code_label : Option String) (codeset_code : Option String)
  | taxonomyDoc (selection_mode : String) (term_keys : List String)
      (terms : Option (List TermInfo))
deriving DecidableEq, Repr

/-- app/models/meta_types.py `CustomMetaItem` (columns the services
read).  The model declares no `type_kind` attribute (that column lives on
`CustomMetaType`), so the `item.type_kind` read in
`_migrate_legacy_data_on_demand` raises AttributeError. -/
structure CustomMetaItem where
  item_id : Nat
  item_code : String
  selection_mode : String
deriving DecidableEq, Repr

/-- app/models/meta_values.py `CustomMetaValue`. -/
structure CustomMetaValue where
  value_id : Nat
  target_type : String
  target_id : String
  item_id : Nat
  current_version_id : Option Nat
deriving DecidableEq, Repr

/-- app/models/meta_values.py `CustomMetaValueVersion` (columns the
services touch).  The model declares `value_json` but no `value_json_v2`;
`Base` is a plain `DeclarativeBase`, so passing `value_json_v2=...` to
this constructor raises TypeError (an undeclared keyword argument). -/
structure CustomMetaValueVersion where
  version_id : Nat
  value_id : Nat
  version_no : Nat
  value_json : Option Doc
  valid_from : Nat
  valid_to : Option Nat
  author : Option String
  reason : Option String
deriving DecidableEq, Repr

/-- app/models/codeset.py `CodeSet` (columns the services read). -/
structure CodeSet where
  codeset_id : Nat
  codeset_code : String
deriving DecidableEq, Repr

/-- app/models/codeset.py `Code`. -/
structure Code where
  code_id : Nat
  codeset_id : Nat
  code_key : String
  current_version_id : Option Nat
deriving DecidableEq, Repr

/-- app/models/codeset.py `CodeVersion` (columns the services read). -/
structure CodeVersion where
  code_version_id : Nat
  code_id : Nat
  label_default : String
deriving DecidableEq, Repr

/-- app/models/taxonomy.py `Taxonomy` (columns the services read). -/
structure Taxonomy where
  taxonomy_id : Nat
  taxonomy_code : String
deriving DecidableEq, Repr

/-- app/models/taxonomy.py `Term` (columns the services read). -/
structure Term where
  term_id : Nat
  taxonomy_id : Nat
  term_key : String
  display_name : String
deriving DecidableEq, Repr

/-- The relational state the meta-value services run against. -/
structure MetaDB where
  items : List CustomMetaItem
  values : List CustomMetaValue
  versions : List CustomMetaValueVersion
  codesets : List CodeSet
  codes : List Code
  code_versions : List CodeVersion
  taxonomies : List Taxonomy
  terms : List Term
  next_id : Nat
deriving DecidableEq, Repr

/-- SQLAlchemy `scalar_one_or_none`: the unique matching row, or `none`
when no row (or, conservatively, more than one row) matches. -/
def scalar_one_or_none (p : α → Bool) (rows : List α) : Option α :=
  match rows.filter p with
  | [x] => some x
  | _ => none

/-- Result of one service call: `ok` carries the committed state and the
returned version id; `err` models a raised HTTPException carrying status
and message, together with the state as of the raise; `crash` models an
uncaught non-HTTP exception — the TypeError every legacy set function
raises at `CustomMetaValueVersion(..., value_json_v2=...)` — carrying the
session state as of the raise (the surrounding transaction is rolled
back, so none of that state persists). -/
inductive SvcResult (α : Type) where
  | ok (db : MetaDB) (result : α)
  | err (status : Nat) (msg : String) (db : MetaDB)
  | crash (msg : String) (db : MetaDB)
deriving DecidableEq, Repr

/-- Whether a call succeeded. -/
def SvcResult.isOk : SvcResult α → Bool
  | .ok _ _ => true
  | .err _ _ _ => false
  | .crash _ _ => false

/-- The database state a call ended in. -/
def SvcResult.db : SvcResult α → MetaDB
  | .ok db _ => db
  | .err _ _ db => db
  | .crash _ db => db

/-- app/schemas/base.py `MetaValuePrimitive` (`value_json` is a JSON dict). -/
structure MetaValuePrimitive where
  value_json : JsonBlob
  author : Option String
  reason : Option String
deriving DecidableEq, Repr

/-- app/schemas/base.py `MetaValueString`. -/
structure MetaValueString where
  value_string : String
  author : Option String
  reason : Option String
deriving DecidableEq, Repr

/-- app/schemas/base.py `MetaValueCode`. -/
structure MetaValueCode where
  code_key_or_id : String
  author : Option String
  reason : Option String
deriving DecidableEq, Repr

/-- app/schemas/base.py `MetaValueTaxSingle`. -/
structure MetaValueTaxSingle where
  term_key_or_id : String
  author : Option String
  reason : Option String
deriving DecidableEq, Repr

/-- app/schemas/base.py `MetaValueTaxMulti`. -/
structure MetaValueTaxMulti where
  term_keys_or_ids : List String
  author : Option String
  reason : Option String
deriving DecidableEq, Repr

/-- The `value_data` dict taken by `set_meta_value_unified`: the keys the
code reads, each possibly absent.  The `isinstance(term_keys, list)` check
cannot fail in this typed model. -/
structure ValueData where
  type_tag : Option String
  value : Option JAny
  code_key : Option String
  term_keys : Option (List String)
  selection_mode : Option String
deriving DecidableEq, Repr

/-- services/utils.py `_next_version_no`:
`select(coalesce(max(version_no), 0)).where(filter_col == filter_val)` plus one. -/
def next_version_no (versions : List CustomMetaValueVersion) (value_id : Nat) : Nat :=
  ((versions.filter (·.value_id == value_id)).map (·.version_no)).foldr max 0 + 1

/-- meta_value_service.py `_ensure_value_row`: select the value row for
(target_type, target_id, item_id) with a row lock, creating it on first
write.  The lock has no effect in this sequential model (claim C3 models
the locking separately). -/
def ensure_value_row (db : MetaDB) (target_type target_id : String)
    (item : CustomMetaItem) : MetaDB × CustomMetaValue :=
  match scalar_one_or_none
      (fun mv => mv.target_type == target_type && mv.target_id == target_id &&
        mv.item_id == item.item_id) db.values with
  | some mv => (db, mv)
  | none =>
    let mv : CustomMetaValue :=
      { value_id := db.next_id, target_type := target_type, target_id := target_id,
        item_id := item.item_id, current_version_id := none }
    ({ db with values := db.values ++ [mv], next_id := db.next_id + 1 }, mv)

/-- The close-previous block that every set function inlines verbatim:
fetch the current version by primary key and, if it is still open, stamp
its `valid_to` with `utcnow()`. -/
def close_current (versions : List CustomMetaValueVersion) (cur : Option Nat)
    (now : Nat) : List CustomMetaValueVersion :=
  match cur with
  | none => versions
  | some pv =>
    versions.map fun v =>
      if v.version_id == pv && v.valid_to.isNone then { v with valid_to := some now }
      else v

/-- The version-creation tail of `set_meta_value_unified` — the one set
function whose `CustomMetaValueVersion(...)` call names only declared
columns and therefore completes: close the previous version, compute the
next version number, insert the new version row with
`valid_from = utcnow()`, flush to obtain its id, and repoint the value
row.  Returns the new state and the new version id. -/
def write_new_version (db : MetaDB) (now : Nat) (target_type target_id : String)
    (item : CustomMetaItem) (vj : Option Doc) (author reason : Option String) :
    MetaDB × Nat :=
  let z := ensure_value_row db target_type target_id item
  let db1 := z.1
  let mv := z.2
  let closed := close_current db1.versions mv.current_version_id now
  let no := next_version_no closed mv.value_id
  let v : CustomMetaValueVersion :=
    { version_id := db1.next_id, value_id := mv.value_id, version_no := no,
      value_json := vj,
      valid_from := now, valid_to := none, author := author, reason := reason }
  let db2 : MetaDB := { db1 with versions := closed ++ [v], next_id := db1.next_id + 1 }
  let db3 : MetaDB :=
    { db2 with values := db2.values.map fun w =>
        if w.value_id == mv.value_id then { w with current_version_id := some v.version_id }
        else w }
  (db3, v.version_id)

/-- The failing write tail shared verbatim by the five legacy set
functions: `_ensure_value_row` (which inserts and flushes the value row on
a first write) and the close-previous block execute, the next version
number is read, and then `CustomMetaValueVersion(..., value_json_v2=...)`
raises TypeError because the model declares no such column, so no version
row is ever constructed on this path.  Returns the session state as of
the raise. -/
def legacy_write_tail (db : MetaDB) (now : Nat) (target_type target_id : String)
    (item : CustomMetaItem) : MetaDB :=
  let z := ensure_value_row db target_type target_id item
  { z.1 with versions := close_current z.1.versions z.2.current_version_id now }

/-- The item lookup every set function performs after the registry check:
`select(CustomMetaItem).where(item_code == ...)` (item_code is unique). -/
def find_item (db : MetaDB) (item_code : String) : Option CustomMetaItem :=
  scalar_one_or_none (·.item_code == item_code) db.items

/-- meta_value_service.py `set_meta_value_primitive`. -/
def set_meta_value_primitive (db : MetaDB) (now : Nat)
    (target_type target_id item_code : String) (payload : MetaValuePrimitive) :
    SvcResult Nat :=
  match get_meta_item_type_kind item_code with
  | none => .err 404 ("meta item not found: " ++ item_code) db
  | some item_type_kind =>
    if item_type_kind ≠ MetaTypeKind.PRIMITIVE then
      .err 400 ("item " ++ item_code ++ " is not PRIMITIVE") db
    else
      match find_item db item_code with
      | none => .err 500 ("meta item " ++ item_code ++ " not found in database - sync issue") db
      | some item =>
        .crash "TypeError: value_json_v2 is an invalid keyword argument for CustomMetaValueVersion"
          (legacy_write_tail db now target_type target_id item)

/-- meta_value_service.py `set_meta_value_string`. -/
def set_meta_value_string (db : MetaDB) (now : Nat)
    (target_type target_id item_code : String) (payload : MetaValueString) :
    SvcResult Nat :=
  match get_meta_item_type_kind item_code with
  | none => .err 404 ("meta item not found: " ++ item_code) db
  | some item_type_kind =>
    if item_type_kind ≠ MetaTypeKind.STRING then
      .err 400 ("item " ++ item_code ++ " is not STRING") db
    else
      match find_item db item_code with
      | none => .err 500 ("meta item " ++ item_code ++ " not found in database - sync issue") db
      | some item =>
        .crash "TypeError: value_json_v2 is an invalid keyword argument for CustomMetaValueVersion"
          (legacy_write_tail db now target_type target_id item)

/-- The code resolution of `set_meta_value_codeset`: by primary key first
(UUID string equality, modelled via the decimal rendering of the id),
then by `code_key` (the join to `Code.codeset` only enforces foreign-key
integrity and filters nothing). -/
def resolve_code (db : MetaDB) (key_or_id : String) : Option Code :=
  match scalar_one_or_none (fun c => Nat.repr c.code_id == key_or_id) db.codes with
  | some c => some c
  | none => scalar_one_or_none (fun c => c.code_key == key_or_id) db.codes

/-- meta_value_service.py `set_meta_value_codeset` (note: this path writes
the version without author/reason). -/
def set_meta_value_codeset (db : MetaDB) (now : Nat)
    (target_type target_id item_code : String) (payload : MetaValueCode) :
    SvcResult Nat :=
  match get_meta_item_type_kind item_code with
  | none => .err 404 ("meta item not found: " ++ item_code) db
  | some item_type_kind =>
    if item_type_kind ≠ MetaTypeKind.CODESET then
      .err 400 ("item " ++ item_code ++ " is not CODESET") db
    else
      match find_item db item_code with
      | none => .err 500 ("meta item " ++ item_code ++ " not found in database - sync issue") db
      | some item =>
        match resolve_code db payload.code_key_or_id with
        | none => .err 400 "invalid code for codeset" db
        | some code =>
          .crash "TypeError: value_json_v2 is an invalid keyword argument for CustomMetaValueVersion"
            (legacy_write_tail db now target_type target_id item)

/-- The term resolution of the taxonomy set functions: by primary key
first, then by `term_key` (the join to `Taxonomy` filters nothing). -/
def resolve_term (db : MetaDB) (key_or_id : String) : Option Term :=
  match scalar_one_or_none (fun t => Nat.repr t.term_id == key_or_id) db.terms with
  | some t => some t
  | none => scalar_one_or_none (fun t => t.term_key == key_or_id) db.terms

/-- meta_value_service.py `set_meta_value_taxonomy_single`. -/
def set_meta_value_taxonomy_single (db : MetaDB) (now : Nat)
    (target_type target_id item_code : String) (payload : MetaValueTaxSingle) :
    SvcResult Nat :=
  match get_meta_item_type_kind item_code with
  | none => .err 404 ("meta item not found: " ++ item_code) db
  | some item_type_kind =>
    if item_type_kind ≠ MetaTypeKind.TAXONOMY then
      .err 400 ("item " ++ item_code ++ " is not TAXONOMY") db
    else
      match find_item db item_code with
      | none => .err 500 ("meta item " ++ item_code ++ " not found in database - sync issue") db
      | some item =>
        if item.selection_mode ≠ "SINGLE" then
          .err 400 ("item " ++ item_code ++ " selection_mode must be SINGLE") db
        else
          match resolve_term db payload.term_key_or_id with
          | none => .err 400 "invalid term for taxonomy" db
          | some term =>
            .crash "TypeError: value_json_v2 is an invalid keyword argument for CustomMetaValueVersion"
              (legacy_write_tail db now target_type target_id item)

/-- The per-key resolution loop of `set_meta_value_taxonomy_multi`,
failing on the first unresolvable key (carried in the error). -/
def resolve_terms (db : MetaDB) : List String → Except String (List Term)
  | [] => .ok []
  | k :: ks =>
    match resolve_term db k with
    | none => .error k
    | some t =>
      match resolve_terms db ks with
      | .error e => .error e
      | .ok ts => .ok (t :: ts)

/-- meta_value_service.py `set_meta_value_taxonomy_multi`.  Note that an
empty `term_keys_or_ids` list passes the resolution loop vacuously; like
every legacy write, the call then fails at version construction. -/
def set_meta_value_taxonomy_multi (db : MetaDB) (now : Nat)
    (target_type target_id item_code : String) (payload : MetaValueTaxMulti) :
    SvcResult Nat :=
  match get_meta_item_type_kind item_code with
  | none => .err 404 ("meta item not found: " ++ item_code) db
  | some item_type_kind =>
    if item_type_kind ≠ MetaTypeKind.TAXONOMY then
      .err 400 ("item " ++ item_code ++ " is not TAXONOMY") db
    else
      match find_item db item_code with
      | none => .err 500 ("meta item " ++ item_code ++ " not found in database - sync issue") db
      | some item =>
        if item.selection_mode ≠ "MULTI" then
          .err 400 ("item " ++ item_code ++ " selection_mode must be MULTI") db
        else
          match resolve_terms db payload.term_keys_or_ids with
          | .error k => .err 400 ("invalid term: " ++ k) db
          | .ok terms =>
            .crash "TypeError: value_json_v2 is an invalid keyword argument for CustomMetaValueVersion"
              (legacy_write_tail db now target_type target_id item)

/-- meta_value_service.py `_validate_unified_value_data`: `none` when the
data passes, or the HTTPException (status, message) it raises. -/
def validate_unified_value_data (db : MetaDB) (value_data : ValueData) :
    Option (Nat × String) :=
  match value_data.type_tag with
  | some "PRIMITIVE" =>
    if value_data.value.isNone then some (400, "PRIMITIVE type requires value field") else none
  | some "STRING" =>
    match value_data.value with
    | none => some (400, "STRING type requires value field")
    | some (.jstr _) => none
    | some (.jother _) => some (400, "STRING type value must be a string")
  | some "CODESET" =>
    match value_data.code_key with
    | none => some (400, "CODESET type requires code_key field")
    | some k =>
      match scalar_one_or_none (fun c => c.code_key == k) db.codes with
      | none => some (400, "Invalid code_key: " ++ k)
      | some _ => none
  | some "TAXONOMY" =>
    match value_data.term_keys with
    | none => some (400, "TAXONOMY type requires term_keys field")
    | some ks =>
      let selection_mode := value_data.selection_mode.getD "SINGLE"
      if selection_mode == "SINGLE" && ks.length ≠ 1 then
        some (400, "SINGLE selection mode requires exactly one term_key")
      else if selection_mode == "MULTI" && ks.length == 0 then
        some (400, "MULTI selection mode requires at least one term_key")
      else
        match ks.find? (fun k =>
            (scalar_one_or_none (fun t => t.term_key == k) db.terms).isNone) with
        | some k => some (400, "Invalid term_key: " ++ k)
        | none => none
  | _ => none

/-- meta_value_service.py `_enrich_value_data`: the enriched document that
is stored in `value_json`; `none` models the `scalar_one` NoResultFound
raise (unreachable once validation has passed and the reference rows are
well formed). -/
def enrich_value_data (db : MetaDB) (value_data : ValueData) : Option Doc :=
  match value_data.type_tag with
  | some "CODESET" =>
    match value_data.code_key with
    | none => none
    | some k =>
      match db.codes.filter (fun c =>
          c.code_key == k &&
          (match c.current_version_id with
           | none => false
           | some cvid => !(db.code_versions.filter (·.code_version_id == cvid)).isEmpty) &&
          !(db.codesets.filter (·.codeset_id == c.codeset_id)).isEmpty) with
      | [code] =>
        match db.code_versions.filter (fun v => code.current_version_id == some v.code_version_id) with
        | [cv] =>
          match db.codesets.filter (·.codeset_id == code.codeset_id) with
          | [cs] =>
            some (.codesetDoc (some code.code_id) (some code.code_key)
              (some cv.label_default) (some cs.codeset_code))
          | _ => none
        | _ => none
      | _ => none
  | some "TAXONOMY" =>
    match value_data.term_keys with
    | none => none
    | some ks =>
      match enrich_terms db ks with
      | none => none
      | some infos =>
        some (.taxonomyDoc (value_data.selection_mode.getD "SINGLE") ks (some infos))
  | some "PRIMITIVE" => some (.primitiveDoc value_data.value)
  | some "STRING" =>
    match value_data.value with
    | some (.jstr s) => some (.stringDoc s)
    | _ => none
  | _ => none
where
  /-- The per-key enrichment loop for TAXONOMY values. -/
  enrich_terms (db : MetaDB) : List String → Option (List TermInfo)
    | [] => some []
    | k :: ks =>
      match db.terms.filter (fun t =>
          t.term_key == k && !(db.taxonomies.filter (·.taxonomy_id == t.taxonomy_id)).isEmpty) with
      | [term] =>
        match db.taxonomies.filter (·.taxonomy_id == term.taxonomy_id) with
        | [tax] =>
          match enrich_terms db ks with
          | none => none
          | some rest =>
            some (⟨term.term_id, term.term_key, term.display_name, tax.taxonomy_code⟩ :: rest)
        | _ => none
      | _ => none

/-- meta_value_service.py `set_meta_value_unified`. -/
def set_meta_value_unified (db : MetaDB) (now : Nat)
    (target_type target_id item_code : String) (value_data : ValueData)
    (author reason : Option String) : SvcResult Nat :=
  match get_meta_item_type_kind item_code with
  | none => .err 404 ("meta item not found: " ++ item_code) db
  | some item_type_kind =>
    match find_item db item_code with
    | none => .err 500 ("meta item " ++ item_code ++ " not found in database - sync issue") db
    | some item =>
      match value_data.type_tag with
      | none => .err 400 "value_data must include type field" db
      | some tag =>
        if tag ≠ item_type_kind.value then
          .err 400 ("value_data type " ++ tag ++ " does not match item type " ++
            item_type_kind.value) db
        else
          match validate_unified_value_data db value_data with
          | some e => .err e.1 e.2 db
          | none =>
            match enrich_value_data db value_data with
            | none => .err 500 "no row found for one" db
            | some enriched =>
              let r := write_new_version db now target_type target_id item
                (some enriched) author reason
              .ok r.1 r.2

/-- meta_value_service.py `_migrate_legacy_data_on_demand`.  The function
can never return normally: when the item code is in the registry, the
branch matching its kind evaluates `version.value_json_v2`, and when it is
not, the `except ValueError` fallback evaluates `item.type_kind`; neither
attribute is declared on the ORM models, so either access raises
AttributeError (every `MetaTypeKind` value is covered by one of the four
branches). -/
def migrate_legacy_data_on_demand (item : CustomMetaItem)
    ( _version : CustomMetaValueVersion) : Except String (Option Doc) :=
  match get_meta_item_type_kind item.item_code with
  | some _ =>
    .error "AttributeError: CustomMetaValueVersion object has no attribute value_json_v2"
  | none =>
    .error "AttributeError: CustomMetaItem object has no attribute type_kind"

/-- meta_value_service.py `get_meta_value_unified` (read path; no
transaction of its own).  Returns the stored unified document; an unknown
item, a missing value row, or an unset current pointer all yield
`.ok none`; a version row without a unified document falls back to
on-demand migration, which always raises AttributeError. -/
def get_meta_value_unified (db : MetaDB)
    (target_type target_id item_code : String) : Except String (Option Doc) :=
  match find_item db item_code with
  | none => .ok none
  | some item =>
    match scalar_one_or_none
        (fun mv => mv.target_type == target_type && mv.target_id == target_id &&
          mv.item_id == item.item_id) db.values with
    | none => .ok none
    | some mv =>
      match mv.current_version_id with
      | none => .ok none
      | some cvid =>
        match scalar_one_or_none (fun v => v.version_id == cvid) db.versions with
        | none => .ok none
        | some version =>
          match version.value_json with
          | some d => .ok (some d)
          | none => migrate_legacy_data_on_demand item version

/-- app/models/taxonomy.py `TermContent`. -/
structure TermContent where
  content_id : Nat
  term_id : Nat
  current_version_id : Option Nat
deriving DecidableEq, Repr

/-- app/models/taxonomy.py `TermContentVersion`. -/
structure TermContentVersion where
  content_version_id : Nat
  content_id : Nat
  version_no : Nat
  body_markdown : Option String
  body_json : Option JsonBlob
  valid_from : Nat
  valid_to : Option Nat
  author : Option String
  change_reason : Option String
deriving DecidableEq, Repr

/-- app/schemas/base.py `TermContentUpdate`. -/
structure TermContentUpdate where
  body_markdown : Option String
  body_json : Option JsonBlob
  author : Option String
  reason : Option String
deriving DecidableEq, Repr

/-- The relational state `upsert_term_content` runs against. -/
structure TermDB where
  contents : List TermContent
  content_versions : List TermContentVersion
  next_id : Nat
deriving DecidableEq, Repr

/-- `_next_version_no` instantiated at the term-content version table. -/
def next_content_version_no (versions : List TermContentVersion) (content_id : Nat) : Nat :=
  ((versions.filter (·.content_id == content_id)).map (·.version_no)).foldr max 0 + 1

/-- The ensure-container block of `upsert_term_content`: select the
per-term content row with a row lock, creating it on first write. -/
def ensure_content_row (db : TermDB) (term_id : Nat) : TermDB × TermContent :=
  match scalar_one_or_none (fun c => c.term_id == term_id) db.contents with
  | some c => (db, c)
  | none =>
    let c : TermContent :=
      { content_id := db.next_id, term_id := term_id, current_version_id := none }
    ({ db with contents := db.contents ++ [c], next_id := db.next_id + 1 }, c)

/-- The close-previous block of `upsert_term_content`, mirroring
`close_current` for the term-content version table. -/
def close_content_current (versions : List TermContentVersion) (cur : Option Nat)
    (now : Nat) : List TermContentVersion :=
  match cur with
  | none => versions
  | some pv =>
    versions.map fun v =>
      if v.content_version_id == pv && v.valid_to.isNone then { v with valid_to := some now }
      else v

/-- services/term_service.py `upsert_term_content`: ensure the per-term
content container exists, close the previous current version, insert the
new version, move the pointer.  Never raises. -/
def upsert_term_content (db : TermDB) (now : Nat) (term_id : Nat)
    (payload : TermContentUpdate) : TermDB × Nat :=
  let z := ensure_content_row db term_id
  let db1 := z.1
  let content := z.2
  let closed := close_content_current db1.content_versions content.current_version_id now
  let no := next_content_version_no closed content.content_id
  let v : TermContentVersion :=
    { content_version_id := db1.next_id, content_id := content.content_id,
      version_no := no, body_markdown := payload.body_markdown,
      body_json := payload.body_json, valid_from := now, valid_to := none,
      author := payload.author, change_reason := payload.reason }
  let db2 : TermDB := { db1 with content_versions := closed ++ [v], next_id := db1.next_id + 1 }
  let db3 : TermDB :=
    { db2 with contents := db2.contents.map fun c =>
        if c.content_id == content.content_id then
          { c with current_version_id := some v.content_version_id }
        else c }
  (db3, v.content_version_id)

/-- app/core/database.py propagation modes of the `transactional` decorator. -/
inductive Propagation where
  | required
  | requires_new
  | nested
deriving DecidableEq, Repr

/-- One observable session-level effect of a `transactional` wrapper run.
Sessions are identified by numbers; `createSession s` models
`AsyncSessionLocal()` plus `_current_session.set(session)`. -/
inductive TxAction where
  | createSession (s : Nat)
  | beginNested (s : Nat)
  | releaseSavepoint (s : Nat)
  | rollbackSavepoint (s : Nat)
  | commitTx (s : Nat)
  | rollbackTx (s : Nat)
  | closeTx (s : Nat)
deriving DecidableEq, Repr

/-- The observable outcome of one `transactional`-wrapped call. -/
structure TxRun where
  actions : List TxAction
  created_here : Bool
  used_session : Nat
  ambient_during : Option Nat
  ambient_after : Option Nat
  raised : Bool
deriving DecidableEq, Repr

/-- app/core/database.py `transactional(...)` wrapper, as a function of the
ambient context (`existing`, the contextvar value on entry), a fresh
session identity, and whether the wrapped body completes or raises.
Follows the source line by line: the `use_new` condition, the nested
savepoint branch, the commit/rollback selection, the except-branch
rollback (`session.in_transaction()` is taken to hold whenever the body
raised), and the finally-branch close plus contextvar token reset. -/
def transactional_run (propagation : Propagation) (read_only : Bool)
    (existing : Option Nat) (fresh : Nat) (body_ok : Bool) : TxRun :=
  let use_new : Bool :=
    propagation == .requires_new || existing.isNone ||
      (read_only && propagation == .required && existing.isSome)
  let session := if use_new then fresh else existing.getD fresh
  let created_here := use_new
  let pre : List TxAction := if use_new then [.createSession session] else []
  let main : List TxAction × Bool :=
    if propagation == .nested && !use_new then
      if body_ok then ([.beginNested session, .releaseSavepoint session], false)
      else ([.beginNested session, .rollbackSavepoint session, .rollbackTx session], true)
    else
      if body_ok then
        (if created_here then
          (if read_only then [.rollbackTx session] else [.commitTx session])
         else if read_only && propagation == .requires_new then [.rollbackTx session]
         else [], false)
      else ([.rollbackTx session], true)
  let fin : List TxAction := if created_here then [.closeTx session] else []
  { actions := pre ++ main.1 ++ fin,
    created_here := created_here,
    used_session := session,
    ambient_during := if created_here then some session else existing,
    ambient_after := if created_here then existing else existing,
    raised := main.2 }

/-- Progress of one writer through the critical section of a set call:
`locked` after `_ensure_value_row` takes the FOR UPDATE row lock,
`readMax m` after `_next_version_no` has read `max(version_no) = m`,
`inserted n` after the new version row with `version_no = n` is flushed,
`committed n` once the surrounding transaction commits (releasing the lock). -/
inductive WriterPhase where
  | idle
  | locked
  | readMax (m : Nat)
  | inserted (n : Nat)
  | committed (n : Nat)
deriving DecidableEq, Repr

/-- Does a writer in this phase hold the entity-row lock? -/
def WriterPhase.holdsLock : WriterPhase → Bool
  | .locked => true
  | .readMax _ => true
  | .inserted _ => true
  | _ => false

/-- The version number a writer in this phase has inserted, if any. -/
def WriterPhase.insVal : WriterPhase → Option Nat
  | .inserted n => some n
  | .committed n => some n
  | _ => none

/-- Two concurrent set calls against one entity: the entity-row lock, the
two writer phases, and the `version_no` column of the entity versions. -/
structure LockSystem where
  lockHolder : Option Bool
  pA : WriterPhase
  pB : WriterPhase
  version_nos : List Nat
deriving DecidableEq, Repr

/-- Phase of writer `i` (`false` = A, `true` = B). -/
def LockSystem.phase (s : LockSystem) (i : Bool) : WriterPhase :=
  if i then s.pB else s.pA

/-- Replace the phase of writer `i`. -/
def LockSystem.setPhase (s : LockSystem) (i : Bool) (p : WriterPhase) : LockSystem :=
  if i then { s with pB := p } else { s with pA := p }

/-- Maximum of a list of numbers, 0 when empty (`coalesce(max(...), 0)`). -/
def maxNo (l : List Nat) : Nat := l.foldr max 0

/-- Interleaving semantics of the two writers.  Acquiring requires the
lock to be free; reading the maximum and inserting require holding it;
the commit releases it.  The lock is held from `_ensure_value_row` to the
end of the transaction, so the read-modify-write is a critical section. -/
inductive LockStep : LockSystem → LockSystem → Prop where
  | acquire (s : LockSystem) (i : Bool) :
      s.lockHolder = none → s.phase i = .idle →
      LockStep s { s.setPhase i .locked with lockHolder := some i }
  | readStep (s : LockSystem) (i : Bool) :
      s.lockHolder = some i → s.phase i = .locked →
      LockStep s (s.setPhase i (.readMax (maxNo s.version_nos)))
  | insertStep (s : LockSystem) (i : Bool) (m : Nat) :
      s.lockHolder = some i → s.phase i = .readMax m →
      LockStep s { s.setPhase i (.inserted (m + 1)) with
        version_nos := s.version_nos ++ [m + 1] }
  | commitStep (s : LockSystem) (i : Bool) (n : Nat) :
      s.lockHolder = some i → s.phase i = .inserted n →
      LockStep s { s.setPhase i (.committed n) with lockHolder := none }

/-- Initial state: both writers idle, lock free, the entity already has
the version rows `vs0`. -/
def lockInit (vs0 : List Nat) : LockSystem :=
  { lockHolder := none, pA := .idle, pB := .idle, version_nos := vs0 }

/-- Reachability by interleaved writer steps. -/
def LockReach (s s' : LockSystem) : Prop := Relation.ReflTransGen LockStep s s'

/-- The inductive invariant of the two-writer lock protocol over an
initial version list `vs0` with maximum `M`: the lock is held exactly by
the writer inside the critical section, the version list reflects how
many inserts have happened (0, 1 or 2, in order), and a writer that has
read the maximum or inserted a row while holding the lock is coupled to
the current version list. -/
def lockInv (vs0 : List Nat) (s : LockSystem) : Prop :=
  (s.pA.holdsLock = true ↔ s.lockHolder = some false) ∧
  (s.pB.holdsLock = true ↔ s.lockHolder = some true) ∧
  ((s.pA.insVal = none ∧ s.pB.insVal = none ∧ s.version_nos = vs0) ∨
   (s.pA.insVal = some (maxNo vs0 + 1) ∧ s.pB.insVal = none ∧
     s.version_nos = vs0 ++ [maxNo vs0 + 1]) ∨
   (s.pB.insVal = some (maxNo vs0 + 1) ∧ s.pA.insVal = none ∧
     s.version_nos = vs0 ++ [maxNo vs0 + 1]) ∨
   (s.pA.insVal = some (maxNo vs0 + 1) ∧ s.pB.insVal = some (maxNo vs0 + 2) ∧
     s.version_nos = vs0 ++ [maxNo vs0 + 1, maxNo vs0 + 2]) ∨
   (s.pB.insVal = some (maxNo vs0 + 1) ∧ s.pA.insVal = some (maxNo vs0 + 2) ∧
     s.version_nos = vs0 ++ [maxNo vs0 + 1, maxNo vs0 + 2])) ∧
  (∀ m, s.pA = .readMax m → m = maxNo s.version_nos) ∧
  (∀ m, s.pB = .readMax m → m = maxNo s.version_nos) ∧
  (∀ n, s.pA = .inserted n → n = maxNo s.version_nos) ∧
  (∀ n, s.pB = .inserted n → n = maxNo s.version_nos)

/-- The version rows belonging to one value entity, in insertion order. -/
def entityVersions (db : MetaDB) (w : Nat) : List CustomMetaValueVersion :=
  db.versions.filter (·.value_id == w)

/-- The value rows for one (target_type, target_id, item_id) key; the
schema makes this key unique. -/
def valueRowsFor (db : MetaDB) (tt ti : String) (iid : Nat) : List CustomMetaValue :=
  db.values.filter
    (fun mv => mv.target_type == tt && mv.target_id == ti && mv.item_id == iid)

/-- Basic well-formedness of the database: every stored id was issued by
the fresh-id counter, and version primary keys are pairwise distinct. -/
def dbWF (db : MetaDB) : Prop :=
  (∀ v ∈ db.versions, v.version_id < db.next_id) ∧
  (∀ v ∈ db.versions, v.value_id < db.next_id) ∧
  (db.versions.map (·.version_id)).Nodup ∧
  (∀ mv ∈ db.values, mv.value_id < db.next_id)

/-- Adjacent versions are handed over correctly: each version is closed
at a time no later than its successor opens. -/
def closedChain (vs : List CustomMetaValueVersion) : Prop :=
  List.Chain' (fun a b => ∃ t, a.valid_to = some t ∧ t ≤ b.valid_from) vs

/-- The version-chain invariant for the entity keyed by
(target_type, target_id, item_id) after `N` accepted writes, with `T` an
upper bound on every timestamp written so far: a unique value row whose
versions carry the version numbers 1..N in insertion order, whose current
pointer names the last (open) version, with every earlier version closed
no later than its successor opened. -/
def chainInv (db : MetaDB) (tt ti : String) (iid : Nat) (T : Nat) : Nat → Prop
  | 0 => valueRowsFor db tt ti iid = []
  | (N + 1) =>
    ∃ mv vlast,
      valueRowsFor db tt ti iid = [mv] ∧
      (entityVersions db mv.value_id).map (·.version_no) = List.range' 1 (N + 1) ∧
      (entityVersions db mv.value_id).getLast? = some vlast ∧
      mv.current_version_id = some vlast.version_id ∧
      vlast.valid_to = none ∧
      closedChain (entityVersions db mv.value_id) ∧
      ∀ v ∈ entityVersions db mv.value_id,
        v.valid_from ≤ T ∧ ∀ t, v.valid_to = some t → t ≤ T

/-- One write request against a fixed (target, item): which of the
`setValue` service functions is called and with which payload. -/
inductive SetOp where
  | primitiveOp (payload : MetaValuePrimitive)
  | stringOp (payload : MetaValueString)
  | codesetOp (payload : MetaValueCode)
  | taxSingleOp (payload : MetaValueTaxSingle)
  | taxMultiOp (payload : MetaValueTaxMulti)
  | unifiedOp (value_data : ValueData) (author reason : Option String)
deriving DecidableEq, Repr

/-- Dispatch one write request to the corresponding service function. -/
def runSetOp (db : MetaDB) (now : Nat) (tt ti ic : String) : SetOp → SvcResult Nat
  | .primitiveOp p => set_meta_value_primitive db now tt ti ic p
  | .stringOp p => set_meta_value_string db now tt ti ic p
  | .codesetOp p => set_meta_value_codeset db now tt ti ic p
  | .taxSingleOp p => set_meta_value_taxonomy_single db now tt ti ic p
  | .taxMultiOp p => set_meta_value_taxonomy_multi db now tt ti ic p
  | .unifiedOp vd a r => set_meta_value_unified db now tt ti ic vd a r

/-- Run a sequence of timestamped write requests against one (target,
item), stopping with `none` as soon as one of them is rejected. -/
def runWrites (tt ti ic : String) : MetaDB → List (Nat × SetOp) → Option MetaDB
  | db, [] => some db
  | db, (now, op) :: rest =>
    match runSetOp db now tt ti ic op with
    | .ok db' _ => runWrites tt ti ic db' rest
    | .err _ _ _ => none
    | .crash _ _ => none

/-- The content-version rows belonging to one term-content container. -/
def contentVersionsFor (db : TermDB) (cid : Nat) : List TermContentVersion :=
  db.content_versions.filter (·.content_id == cid)

/-- The content containers for one term (unique by schema). -/
def contentRowsFor (db : TermDB) (term_id : Nat) : List TermContent :=
  db.contents.filter (·.term_id == term_id)

/-- Well-formedness of the term-content store, mirroring `dbWF`. -/
def termDbWF (db : TermDB) : Prop :=
  (∀ v ∈ db.content_versions, v.content_version_id < db.next_id) ∧
  (∀ v ∈ db.content_versions, v.content_id < db.next_id) ∧
  (db.content_versions.map (·.content_version_id)).Nodup ∧
  (∀ c ∈ db.contents, c.content_id < db.next_id)

/-- Closed-chain condition for term-content versions. -/
def closedContentChain (vs : List TermContentVersion) : Prop :=
  List.Chain' (fun a b => ∃ t, a.valid_to = some t ∧ t ≤ b.valid_from) vs

/-- The version-chain invariant for one term content, mirroring `chainInv`. -/
def termChainInv (db : TermDB) (term_id : Nat) (T : Nat) : Nat → Prop
  | 0 => contentRowsFor db term_id = []
  | (N + 1) =>
    ∃ c vlast,
      contentRowsFor db term_id = [c] ∧
      (contentVersionsFor db c.content_id).map (·.version_no) = List.range' 1 (N + 1) ∧
      (contentVersionsFor db c.content_id).getLast? = some vlast ∧
      c.current_version_id = some vlast.content_version_id ∧
      vlast.valid_to = none ∧
      closedContentChain (contentVersionsFor db c.content_id) ∧
      ∀ v ∈ contentVersionsFor db c.content_id,
        v.valid_from ≤ T ∧ ∀ t, v.valid_to = some t → t ≤ T

/-- Run a sequence of timestamped `upsertTermContent` calls (they never
reject). -/
def runUpserts (term_id : Nat) : TermDB → List (Nat × TermContentUpdate) → TermDB
  | db, [] => db
  | db, (now, p) :: rest => runUpserts term_id (upsert_term_content db now term_id p).1 rest

/-- A small concrete database seeded like the bootstrap data: the four
registry items, one codeset with one code, one taxonomy with one term. -/
def demoDB : MetaDB :=
  { items := [⟨1, "retention_days", "SINGLE"⟩,
              ⟨2, "table_description", "SINGLE"⟩,
              ⟨3, "pii_level", "SINGLE"⟩,
              ⟨4, "domain", "SINGLE"⟩],
    values := [], versions := [],
    codesets := [⟨5, "PII_LEVEL"⟩],
    codes := [⟨6, 5, "HIGH", some 7⟩],
    code_versions := [⟨7, 6, "High"⟩],
    taxonomies := [⟨8, "DOMAIN_TAX"⟩],
    terms := [⟨9, 8, "finance", "Finance"⟩],
    next_id := 10 }

/-- `demoDB` with the taxonomy item configured MULTI instead of SINGLE. -/
def demoMultiDB : MetaDB :=
  { demoDB with
    items := [⟨1, "retention_days", "SINGLE"⟩,
              ⟨2, "table_description", "SINGLE"⟩,
              ⟨3, "pii_level", "SINGLE"⟩,
              ⟨4, "domain", "MULTI"⟩] }

/-- An empty term-content store. -/
def demoTermDB : TermDB := { contents := [], content_versions := [], next_id := 1 }

/-- Two timestamped unified primitive writes against one (target, item)
(the legacy write paths cannot complete, so the successful writes of the
program are unified writes and term upserts). -/
def demoWriteOps : List (Nat × SetOp) :=
  [(5, .unifiedOp ⟨some "PRIMITIVE", some (.jother ⟨"days 30"⟩), none, none, none⟩ none none),
   (7, .unifiedOp ⟨some "PRIMITIVE", some (.jother ⟨"days 60"⟩), none, none, none⟩ none none)]

/-- Two timestamped content upserts against one term. -/
def demoTermOps : List (Nat × TermContentUpdate) :=
  [(3, ⟨some "first body", none, none, none⟩),
   (4, ⟨some "second body", none, none, none⟩)]

/-- The state after running `demoWriteOps` on the demo database. -/
def demoChainDB : MetaDB :=
  (runWrites "table" "orders" "retention_days" demoDB demoWriteOps).getD demoDB

/-- Filtering by a predicate a map leaves invariant commutes with the map. -/
theorem filter_map_comm (f : α → α) (p : α → Bool) (hf : ∀ a, p (f a) = p a) :
    ∀ l : List α, (l.map f).filter p = (l.filter p).map f := by
  intro l
  induction l with
  | nil => rfl
  | cons x xs ih =>
    simp only [List.map_cons, List.filter_cons, hf x]
    cases hpx : p x <;> simp [hpx, ih]

/-- A map that fixes every element of a list is the identity on it. -/
theorem map_eq_self_of_fix (f : α → α) :
    ∀ l : List α, (∀ x ∈ l, f x = x) → l.map f = l := by
  intro l h
  induction l with
  | nil => rfl
  | cons x xs ih => simp_all

/-- Mapping a projection a map leaves invariant ignores the map. -/
theorem map_map_eq_of_comp (f : α → α) (g : α → β) (h : ∀ a, g (f a) = g a) :
    ∀ l : List α, (l.map f).map g = l.map g := by
  intro l
  induction l with
  | nil => rfl
  | cons x xs ih => simp_all

/-- The maximum fold of the contiguous block 1..n (n positive). -/
theorem foldr_max_range' (s n : Nat) :
    (List.range' s (n + 1)).foldr max 0 = s + n := by
  induction n generalizing s with
  | zero => simp [List.range'_succ]
  | succ n ih =>
    rw [List.range'_succ]
    simp only [List.foldr_cons, ih (s + 1)]
    omega

/-- Appending the next element to a contiguous block. -/
theorem range'_snoc (s n : Nat) :
    List.range' s (n + 1) = List.range' s n ++ [s + n] := by
  induction n generalizing s with
  | zero => simp [List.range'_succ]
  | succ n ih =>
    rw [List.range'_succ, ih (s + 1), List.range'_succ]
    simp only [List.cons_append]
    have harith : s + 1 + n = s + (n + 1) := by omega
    rw [harith]

/-- A list with a known last element splits off that element. -/
theorem getLast?_split {α} (l : List α) (b : α) (h : l.getLast? = some b) :
    ∃ l', l = l' ++ [b] := by
  induction l with
  | nil => simp at h
  | cons x xs ih =>
    cases xs with
    | nil =>
      simp [List.getLast?] at h
      exact ⟨[], by simp [h]⟩
    | cons y ys =>
      rw [List.getLast?_cons_cons] at h
      obtain ⟨l', hl⟩ := ih h
      exact ⟨x :: l', by simp [hl]⟩

/-- Closing with no current pointer is the identity. -/
theorem close_current_none (vs : List CustomMetaValueVersion) (now : Nat) :
    close_current vs none now = vs := rfl

/-- Closing distributes over append. -/
theorem close_current_append (vs1 vs2 : List CustomMetaValueVersion)
    (cur : Option Nat) (now : Nat) :
    close_current (vs1 ++ vs2) cur now =
      close_current vs1 cur now ++ close_current vs2 cur now := by
  cases cur <;> simp [close_current]

/-- Closing leaves rows with a different primary key untouched. -/
theorem close_current_skip (vs : List CustomMetaValueVersion) (pv now : Nat)
    (h : ∀ v ∈ vs, v.version_id ≠ pv) :
    close_current vs (some pv) now = vs := by
  unfold close_current
  apply map_eq_self_of_fix
  intro v hv
  have hne : (v.version_id == pv) = false := by
    simp only [beq_eq_false_iff_ne, ne_eq]
    exact h v hv
  simp [hne]

/-- Closing leaves already-closed rows untouched. -/
theorem close_current_of_closed (vs : List CustomMetaValueVersion) (pv now : Nat)
    (h : ∀ v ∈ vs, v.valid_to ≠ none) :
    close_current vs (some pv) now = vs := by
  unfold close_current
  apply map_eq_self_of_fix
  intro v hv
  have hne : v.valid_to.isNone = false := by
    simp only [Option.isNone_eq_false_iff, Option.isSome_iff_ne_none]
    exact h v hv
  simp [hne]

/-- Closing the singleton holding the open current version stamps it. -/
theorem close_current_open_singleton (v : CustomMetaValueVersion) (now : Nat)
    (h : v.valid_to = none) :
    close_current [v] (some v.version_id) now = [{ v with valid_to := some now }] := by
  simp [close_current, h]

/-- Closing commutes with restriction to one entity. -/
theorem close_current_filter_value (vs : List CustomMetaValueVersion)
    (cur : Option Nat) (now w : Nat) :
    (close_current vs cur now).filter (·.value_id == w) =
      close_current (vs.filter (·.value_id == w)) cur now := by
  cases cur with
  | none => rfl
  | some pv =>
    unfold close_current
    exact filter_map_comm _ _ (fun a => by split <;> rfl) vs

/-- Closing preserves the version numbers. -/
theorem close_current_version_no_map (vs : List CustomMetaValueVersion)
    (cur : Option Nat) (now : Nat) :
    (close_current vs cur now).map (·.version_no) = vs.map (·.version_no) := by
  cases cur with
  | none => rfl
  | some pv =>
    unfold close_current
    exact map_map_eq_of_comp _ _ (fun a => by split <;> rfl) vs

/-- Closing preserves the primary keys. -/
theorem close_current_id_map (vs : List CustomMetaValueVersion)
    (cur : Option Nat) (now : Nat) :
    (close_current vs cur now).map (·.version_id) = vs.map (·.version_id) := by
  cases cur with
  | none => rfl
  | some pv =>
    unfold close_current
    exact map_map_eq_of_comp _ _ (fun a => by split <;> rfl) vs

/-- Closing preserves the owning entity ids. -/
theorem close_current_value_id_map (vs : List CustomMetaValueVersion)
    (cur : Option Nat) (now : Nat) :
    (close_current vs cur now).map (·.value_id) = vs.map (·.value_id) := by
  cases cur with
  | none => rfl
  | some pv =>
    unfold close_current
    exact map_map_eq_of_comp _ _ (fun a => by split <;> rfl) vs

/-- `_next_version_no` is insensitive to closing. -/
theorem next_version_no_closed (vs : List CustomMetaValueVersion)
    (cur : Option Nat) (now w : Nat) :
    next_version_no (close_current vs cur now) w = next_version_no vs w := by
  unfold next_version_no
  rw [close_current_filter_value, close_current_version_no_map]

/-- First write: `_ensure_value_row` creates the value row lazily. -/
theorem ensure_value_row_fresh (db : MetaDB) (tt ti : String) (item : CustomMetaItem)
    (h : valueRowsFor db tt ti item.item_id = []) :
    ensure_value_row db tt ti item =
      ({ db with
          values := db.values ++ [⟨db.next_id, tt, ti, item.item_id, none⟩],
          next_id := db.next_id + 1 },
       ⟨db.next_id, tt, ti, item.item_id, none⟩) := by
  unfold valueRowsFor at h
  unfold ensure_value_row scalar_one_or_none
  rw [h]

/-- Later writes: `_ensure_value_row` returns the unique existing row. -/
theorem ensure_value_row_existing (db : MetaDB) (tt ti : String)
    (item : CustomMetaItem) (mv0 : CustomMetaValue)
    (h : valueRowsFor db tt ti item.item_id = [mv0]) :
    ensure_value_row db tt ti item = (db, mv0) := by
  unfold valueRowsFor at h
  unfold ensure_value_row scalar_one_or_none
  rw [h]

/-- The literal effect of the version-creation tail on a first write:
a fresh value row pointing at a fresh version row numbered 1. -/
theorem write_new_version_fresh (db : MetaDB) (now : Nat) (tt ti : String)
    (item : CustomMetaItem) (vj : Option Doc) (a r : Option String)
    (hWF : dbWF db) (h : valueRowsFor db tt ti item.item_id = []) :
    write_new_version db now tt ti item vj a r =
      ({ db with
          values := db.values ++
            [⟨db.next_id, tt, ti, item.item_id, some (db.next_id + 1)⟩],
          versions := db.versions ++
            [⟨db.next_id + 1, db.next_id, 1, vj, now, none, a, r⟩],
          next_id := db.next_id + 2 },
       db.next_id + 1) := by
  obtain ⟨hWF1, hWF2, hWF3, hWF4⟩ := hWF
  unfold write_new_version
  rw [ensure_value_row_fresh db tt ti item h]
  have hfilter : db.versions.filter (·.value_id == db.next_id) = [] := by
    rw [List.filter_eq_nil_iff]
    intro v hv
    have := hWF2 v hv
    simp only [beq_iff_eq]
    omega
  have hnext : next_version_no db.versions db.next_id = 1 := by
    unfold next_version_no
    rw [hfilter]
    rfl
  have hmapfix :
      db.values.map (fun w =>
        if w.value_id = db.next_id then
          { w with current_version_id := some (db.next_id + 1) } else w) = db.values := by
    apply map_eq_self_of_fix
    intro x hx
    have := hWF4 x hx
    have hne : ¬ x.value_id = db.next_id := by omega
    simp [hne]
  simp only [close_current_none, hnext]
  simp [hmapfix]

/-- The literal effect of the version-creation tail on a later write:
the previous version is closed, the new row is numbered max + 1, and the
unique value row is repointed. -/
theorem write_new_version_existing (db : MetaDB) (now : Nat) (tt ti : String)
    (item : CustomMetaItem) (vj : Option Doc) (a r : Option String)
    (mv0 : CustomMetaValue)
    (h : valueRowsFor db tt ti item.item_id = [mv0]) :
    write_new_version db now tt ti item vj a r =
      ({ db with
          versions := close_current db.versions mv0.current_version_id now ++
            [⟨db.next_id, mv0.value_id,
              next_version_no (close_current db.versions mv0.current_version_id now)
                mv0.value_id,
              vj, now, none, a, r⟩],
          values := db.values.map fun w =>
            if w.value_id == mv0.value_id then
              { w with current_version_id := some db.next_id } else w,
          next_id := db.next_id + 1 },
       db.next_id) := by
  unfold write_new_version
  rw [ensure_value_row_existing db tt ti item mv0 h]

/-- Replacing the last element of a chain by one with the same incoming
relation keeps the chain. -/
theorem chain'_replace_last {R : α → α → Prop} (l : List α) (b b' : α)
    (h : List.Chain' R (l ++ [b])) (hlift : ∀ x, R x b → R x b') :
    List.Chain' R (l ++ [b']) := by
  rw [List.chain'_append] at h ⊢
  obtain ⟨h1, _, h3⟩ := h
  refine ⟨h1, List.chain'_singleton b', ?_⟩
  intro x hx y hy
  have hyb : y = b' := by simp_all
  subst hyb
  exact hlift x (h3 x hx b (by simp))

/-- Appending an element related to the last element keeps the chain. -/
theorem chain'_snoc {R : α → α → Prop} (l : List α) (b : α)
    (h : List.Chain' R l) (hlast : ∀ x ∈ l.getLast?, R x b) :
    List.Chain' R (l ++ [b]) := by
  rw [List.chain'_append]
  refine ⟨h, List.chain'_singleton b, ?_⟩
  intro x hx y hy
  have hyb : y = b := by simp_all
  subst hyb
  exact hlast x hx

/-- In a closed chain every element before the last is closed. -/
theorem chain_closed_prefix (l : List CustomMetaValueVersion)
    (b : CustomMetaValueVersion) (h : closedChain (l ++ [b])) :
    ∀ x ∈ l, x.valid_to ≠ none := by
  induction l with
  | nil => simp
  | cons v vs ih =>
    intro x hx
    rw [List.cons_append] at h
    rcases List.chain'_cons'.mp h with ⟨hR, htail⟩
    rcases List.mem_cons.mp hx with rfl | hx
    · have hhead : ∃ y, (vs ++ [b]).head? = some y := by cases vs <;> simp
      obtain ⟨y, hy⟩ := hhead
      obtain ⟨t, ht, _⟩ := hR y (by simp [hy])
      simp [ht]
    · exact ih htail x hx

/-- A numeric bound transfers along an equality of projected lists. -/
theorem forall_lt_of_map_eq {α} (g : α → Nat) (l l' : List α) (n : Nat)
    (hmap : l'.map g = l.map g) (h : ∀ v ∈ l, g v < n) : ∀ v ∈ l', g v < n := by
  intro v hv
  have hm : g v ∈ l'.map g := List.mem_map_of_mem g hv
  rw [hmap] at hm
  obtain ⟨u, hu, he⟩ := List.mem_map.mp hm
  rw [← he]
  exact h u hu

/-- The version-chain induction step: on a well-formed database where the
entity satisfies the chain invariant with timestamps bounded by `T`, one
run of the shared version-creation tail at any instant `now ≥ T`
preserves well-formedness and extends the chain by exactly one version. -/
theorem chain_step (db : MetaDB) (now T N : Nat) (tt ti : String)
    (item : CustomMetaItem) (vj : Option Doc) (a r : Option String)
    (hWF : dbWF db) (hInv : chainInv db tt ti item.item_id T N) (hT : T ≤ now) :
    dbWF (write_new_version db now tt ti item vj a r).1 ∧
    chainInv (write_new_version db now tt ti item vj a r).1
      tt ti item.item_id now (N + 1) := by
  obtain ⟨hWF1, hWF2, hWF3, hWF4⟩ := hWF
  cases N with
  | zero =>
    unfold chainInv at hInv
    rw [write_new_version_fresh db now tt ti item vj a r ⟨hWF1, hWF2, hWF3, hWF4⟩ hInv]
    have hfilter : db.versions.filter (·.value_id == db.next_id) = [] := by
      rw [List.filter_eq_nil_iff]
      intro v hv
      have := hWF2 v hv
      simp only [beq_iff_eq]
      omega
    constructor
    · refine ⟨?_, ?_, ?_, ?_⟩
      · intro v hv
        dsimp only at hv ⊢
        rcases List.mem_append.mp hv with hv | hv
        · have := hWF1 v hv; omega
        · simp only [List.mem_singleton] at hv; subst hv; dsimp only; omega
      · intro v hv
        dsimp only at hv ⊢
        rcases List.mem_append.mp hv with hv | hv
        · have := hWF2 v hv; omega
        · simp only [List.mem_singleton] at hv; subst hv; dsimp only; omega
      · dsimp only
        rw [List.map_append]
        simp only [List.map_cons, List.map_nil]
        rw [List.nodup_append]
        refine ⟨hWF3, List.nodup_singleton _, ?_⟩
        intro x hx
        obtain ⟨u, hu, he⟩ := List.mem_map.mp hx
        have := hWF1 u hu
        simp only [List.mem_singleton]
        omega
      · intro w hw
        dsimp only at hw ⊢
        rcases List.mem_append.mp hw with hw | hw
        · have := hWF4 w hw; omega
        · simp only [List.mem_singleton] at hw; subst hw; dsimp only; omega
    · unfold chainInv
      refine ⟨⟨db.next_id, tt, ti, item.item_id, some (db.next_id + 1)⟩,
        ⟨db.next_id + 1, db.next_id, 1, vj, now, none, a, r⟩, ?_, ?_, ?_, rfl, rfl, ?_, ?_⟩
      · unfold valueRowsFor at hInv ⊢
        dsimp only
        simp only [List.filter_append, hInv, List.nil_append]
        simp
      · unfold entityVersions
        dsimp only
        simp only [List.filter_append, hfilter, List.nil_append]
        simp [List.range']
      · unfold entityVersions
        dsimp only
        simp only [List.filter_append, hfilter, List.nil_append]
        simp
      · unfold entityVersions
        dsimp only
        simp only [List.filter_append, hfilter, List.nil_append]
        simp [closedChain]
      · unfold entityVersions
        dsimp only
        simp only [List.filter_append, hfilter, List.nil_append]
        intro v hv
        simp at hv
        subst hv
        simp
  | succ N =>
    unfold chainInv at hInv
    obtain ⟨mv, vlast, hrows, hnos, hlast, hcur, hopen, hchain, hstamps⟩ := hInv
    have hmvmem : mv ∈ db.values := by
      have : mv ∈ valueRowsFor db tt ti item.item_id := by rw [hrows]; simp
      exact List.mem_of_mem_filter this
    have hwlt : mv.value_id < db.next_id := hWF4 mv hmvmem
    rw [write_new_version_existing db now tt ti item vj a r mv hrows]
    obtain ⟨ws, hws⟩ := getLast?_split _ _ hlast
    have hclosed_pre : ∀ x ∈ ws, x.valid_to ≠ none := by
      intro x hx
      exact chain_closed_prefix ws vlast (hws ▸ hchain) x hx
    have hclose_ent :
        close_current (entityVersions db mv.value_id) mv.current_version_id now =
          ws ++ [{ vlast with valid_to := some now }] := by
      rw [hcur, hws, close_current_append, close_current_of_closed ws _ _ hclosed_pre,
        close_current_open_singleton vlast now hopen]
    have hnext : next_version_no
        (close_current db.versions mv.current_version_id now) mv.value_id = N + 2 := by
      rw [next_version_no_closed]
      unfold next_version_no
      have hent : db.versions.filter (·.value_id == mv.value_id) =
          entityVersions db mv.value_id := rfl
      rw [hent, hnos, foldr_max_range']
      omega
    have hentity :
        entityVersions
          (write_new_version db now tt ti item vj a r).1 mv.value_id =
        (ws ++ [{ vlast with valid_to := some now }]) ++
          [⟨db.next_id, mv.value_id, N + 2, vj, now, none, a, r⟩] := by
      rw [write_new_version_existing db now tt ti item vj a r mv hrows]
      unfold entityVersions
      dsimp only
      rw [List.filter_append, close_current_filter_value]
      have hent : db.versions.filter (·.value_id == mv.value_id) =
          entityVersions db mv.value_id := rfl
      rw [hent, hclose_ent, hnext]
      simp
    rw [write_new_version_existing db now tt ti item vj a r mv hrows] at hentity
    constructor
    · refine ⟨?_, ?_, ?_, ?_⟩
      · intro v hv
        dsimp only at hv ⊢
        rcases List.mem_append.mp hv with hv | hv
        · have := forall_lt_of_map_eq (·.version_id) db.versions _ db.next_id
            (close_current_id_map db.versions mv.current_version_id now) hWF1 v hv
          dsimp only at this
          omega
        · simp only [List.mem_singleton] at hv; subst hv; dsimp only; omega
      · intro v hv
        dsimp only at hv ⊢
        rcases List.mem_append.mp hv with hv | hv
        · have := forall_lt_of_map_eq (·.value_id) db.versions _ db.next_id
            (close_current_value_id_map db.versions mv.current_version_id now) hWF2 v hv
          dsimp only at this
          omega
        · simp only [List.mem_singleton] at hv; subst hv; dsimp only; omega
      · dsimp only
        rw [List.map_append, close_current_id_map]
        simp only [List.map_cons, List.map_nil]
        rw [List.nodup_append]
        refine ⟨hWF3, List.nodup_singleton _, ?_⟩
        intro x hx
        obtain ⟨u, hu, he⟩ := List.mem_map.mp hx
        have := hWF1 u hu
        simp only [List.mem_singleton]
        omega
      · intro w hw
        dsimp only at hw ⊢
        have hmapped : (db.values.map fun x =>
            if x.value_id == mv.value_id then
              { x with current_version_id := some db.next_id } else x).map (·.value_id) =
            db.values.map (·.value_id) := by
          apply map_map_eq_of_comp
          intro x
          split <;> rfl
        have := forall_lt_of_map_eq (·.value_id) db.values _ db.next_id hmapped hWF4 w hw
        dsimp only at this
        omega
    · unfold chainInv
      refine ⟨{ mv with current_version_id := some db.next_id },
        ⟨db.next_id, mv.value_id, N + 2, vj, now, none, a, r⟩, ?_, ?_, ?_, rfl, rfl, ?_, ?_⟩
      · unfold valueRowsFor at hrows ⊢
        dsimp only
        rw [filter_map_comm _ _ (fun x => by split <;> rfl) db.values, hrows]
        simp
      · dsimp only
        rw [hentity]
        rw [List.map_append, List.map_append]
        simp only [List.map_cons, List.map_nil]
        have hnos2 := hnos
        rw [hws, List.map_append] at hnos2
        simp only [List.map_cons, List.map_nil] at hnos2
        have hmapws : (ws.map (·.version_no)) ++
            [({ vlast with valid_to := some now } : CustomMetaValueVersion).version_no] =
            List.range' 1 (N + 1) := by
          dsimp only
          exact hnos2
        rw [hmapws]
        have hrc := range'_snoc 1 (N + 1)
        have h2 : 1 + (N + 1) = N + 2 := by omega
        rw [h2] at hrc
        rw [hrc]
      · dsimp only
        rw [hentity]
        simp
      · dsimp only
        rw [hentity]
        unfold closedChain
        apply chain'_snoc
        · apply chain'_replace_last ws vlast _ (hws ▸ hchain)
          intro x hx
          obtain ⟨t, ht, hle⟩ := hx
          exact ⟨t, ht, hle⟩
        · intro x hx
          simp at hx
          subst hx
          exact ⟨now, rfl, le_refl now⟩
      · dsimp only
        rw [hentity]
        intro v hv
        rcases List.mem_append.mp hv with hv | hv
        · rcases List.mem_append.mp hv with hv | hv
          · have hvent : v ∈ entityVersions db mv.value_id := by
              rw [hws]; exact List.mem_append.mpr (Or.inl hv)
            obtain ⟨hf, hto⟩ := hstamps v hvent
            exact ⟨le_trans hf hT, fun t ht => le_trans (hto t ht) hT⟩
          · simp only [List.mem_singleton] at hv
            subst hv
            constructor
            · have hvent : vlast ∈ entityVersions db mv.value_id := by
                rw [hws]; simp
              exact le_trans (hstamps vlast hvent).1 hT
            · intro t ht
              simp at ht
              omega
        · simp only [List.mem_singleton] at hv
          subst hv
          exact ⟨le_refl now, fun t ht => by simp at ht⟩

/-- The version-creation tail never touches the item table. -/
theorem write_new_version_items (db : MetaDB) (now : Nat) (tt ti : String)
    (item : CustomMetaItem) (vj : Option Doc) (a r : Option String) :
    (write_new_version db now tt ti item vj a r).1.items = db.items := by
  unfold write_new_version ensure_value_row
  cases hsc : scalar_one_or_none
      (fun mv => mv.target_type == tt && mv.target_id == ti && mv.item_id == item.item_id)
      db.values <;>
    simp [hsc]

/-- Success inversion: every accepted write of any `setValue` variant is
one run of the version-creation tail against the item row found for the
item code (the five legacy variants end in the TypeError crash, so only
unified writes can be accepted). -/
theorem runSetOp_ok (db : MetaDB) (now : Nat) (tt ti ic : String) (op : SetOp)
    (db' : MetaDB) (vid : Nat) (h : runSetOp db now tt ti ic op = .ok db' vid) :
    ∃ item vj a r, find_item db ic = some item ∧
      write_new_version db now tt ti item vj a r = (db', vid) := by
  cases op with
  | primitiveOp p =>
    simp only [runSetOp] at h
    unfold set_meta_value_primitive at h
    repeat' split at h
    all_goals simp at h
  | stringOp p =>
    simp only [runSetOp] at h
    unfold set_meta_value_string at h
    repeat' split at h
    all_goals simp at h
  | codesetOp p =>
    simp only [runSetOp] at h
    unfold set_meta_value_codeset at h
    repeat' split at h
    all_goals simp at h
  | taxSingleOp p =>
    simp only [runSetOp] at h
    unfold set_meta_value_taxonomy_single at h
    repeat' split at h
    all_goals simp at h
  | taxMultiOp p =>
    simp only [runSetOp] at h
    unfold set_meta_value_taxonomy_multi at h
    repeat' split at h
    all_goals simp at h
  | unifiedOp vd a r =>
    simp only [runSetOp] at h
    unfold set_meta_value_unified at h
    repeat' split at h
    all_goals first
      | (rw [SvcResult.ok.injEq] at h
         exact ⟨_, _, _, _, by assumption, Prod.ext_iff.mpr ⟨h.1, h.2⟩⟩)
      | simp at h

/-- Sequencing: any monotonically timestamped run of accepted writes
against one (target, item) preserves well-formedness and grows the
version chain by one link per write. -/
theorem runWrites_chain (tt ti ic : String) (item : CustomMetaItem) :
    ∀ ops db db' T N,
      dbWF db → find_item db ic = some item →
      chainInv db tt ti item.item_id T N →
      List.Chain (· ≤ ·) T (ops.map Prod.fst) →
      runWrites tt ti ic db ops = some db' →
      dbWF db' ∧
        chainInv db' tt ti item.item_id (ops.foldl (fun _ p => p.1) T)
          (N + ops.length) := by
  intro ops
  induction ops with
  | nil =>
    intro db db' T N hWF hfind hInv hclock hrun
    unfold runWrites at hrun
    rw [Option.some.injEq] at hrun
    subst hrun
    exact ⟨hWF, by simpa using hInv⟩
  | cons p rest ih =>
    intro db db' T N hWF hfind hInv hclock hrun
    unfold runWrites at hrun
    split at hrun
    · rename_i db1 vid hok
      obtain ⟨item0, vj, a, r, hfind0, hw⟩ :=
        runSetOp_ok db p.1 tt ti ic p.2 db1 vid hok
      have hitem0 : item0 = item := by
        rw [hfind0] at hfind
        exact (Option.some.injEq _ _).mp hfind
      subst hitem0
      rw [List.map_cons, List.chain_cons] at hclock
      obtain ⟨hTp, hclock'⟩ := hclock
      have hstep := chain_step db p.1 T N tt ti item0 vj a r hWF hInv hTp
      rw [hw] at hstep
      have hfind1 : find_item db1 ic = some item0 := by
        have hitems : db1.items = db.items := by
          have := write_new_version_items db p.1 tt ti item0 vj a r
          rw [hw] at this
          exact this
        unfold find_item at hfind0 ⊢
        rw [hitems]
        exact hfind0
      have hres := ih db1 db' p.1 (N + 1) hstep.1 hfind1 hstep.2 hclock' hrun
      refine ⟨hres.1, ?_⟩
      have hlen : N + 1 + rest.length = N + (rest.length + 1) := by omega
      rw [hlen] at hres
      simpa using hres.2
    · exact absurd hrun (by simp)
    · exact absurd hrun (by simp)

/-- Term-content mirror of `close_current_none`. -/
theorem close_content_none (vs : List TermContentVersion) (now : Nat) :
    close_content_current vs none now = vs := rfl

/-- Term-content mirror of `close_current_append`. -/
theorem close_content_append (vs1 vs2 : List TermContentVersion)
    (cur : Option Nat) (now : Nat) :
    close_content_current (vs1 ++ vs2) cur now =
      close_content_current vs1 cur now ++ close_content_current vs2 cur now := by
  cases cur <;> simp [close_content_current]

/-- Term-content mirror of `close_current_of_closed`. -/
theorem close_content_of_closed (vs : List TermContentVersion) (pv now : Nat)
    (h : ∀ v ∈ vs, v.valid_to ≠ none) :
    close_content_current vs (some pv) now = vs := by
  unfold close_content_current
  apply map_eq_self_of_fix
  intro v hv
  have hne : v.valid_to.isNone = false := by
    simp only [Option.isNone_eq_false_iff, Option.isSome_iff_ne_none]
    exact h v hv
  simp [hne]

/-- Term-content mirror of `close_current_open_singleton`. -/
theorem close_content_open_singleton (v : TermContentVersion) (now : Nat)
    (h : v.valid_to = none) :
    close_content_current [v] (some v.content_version_id) now =
      [{ v with valid_to := some now }] := by
  simp [close_content_current, h]

/-- Term-content mirror of `close_current_filter_value`. -/
theorem close_content_filter (vs : List TermContentVersion)
    (cur : Option Nat) (now w : Nat) :
    (close_content_current vs cur now).filter (·.content_id == w) =
      close_content_current (vs.filter (·.content_id == w)) cur now := by
  cases cur with
  | none => rfl
  | some pv =>
    unfold close_content_current
    exact filter_map_comm _ _ (fun a => by split <;> rfl) vs

/-- Term-content mirror of `close_current_version_no_map`. -/
theorem close_content_version_no_map (vs : List TermContentVersion)
    (cur : Option Nat) (now : Nat) :
    (close_content_current vs cur now).map (·.version_no) = vs.map (·.version_no) := by
  cases cur with
  | none => rfl
  | some pv =>
    unfold close_content_current
    exact map_map_eq_of_comp _ _ (fun a => by split <;> rfl) vs

/-- Term-content mirror of `close_current_id_map`. -/
theorem close_content_id_map (vs : List TermContentVersion)
    (cur : Option Nat) (now : Nat) :
    (close_content_current vs cur now).map (·.content_version_id) =
      vs.map (·.content_version_id) := by
  cases cur with
  | none => rfl
  | some pv =>
    unfold close_content_current
    exact map_map_eq_of_comp _ _ (fun a => by split <;> rfl) vs

/-- Term-content mirror of `close_current_value_id_map`. -/
theorem close_content_owner_map (vs : List TermContentVersion)
    (cur : Option Nat) (now : Nat) :
    (close_content_current vs cur now).map (·.content_id) = vs.map (·.content_id) := by
  cases cur with
  | none => rfl
  | some pv =>
    unfold close_content_current
    exact map_map_eq_of_comp _ _ (fun a => by split <;> rfl) vs

/-- Term-content mirror of `next_version_no_closed`. -/
theorem next_content_version_no_closed (vs : List TermContentVersion)
    (cur : Option Nat) (now w : Nat) :
    next_content_version_no (close_content_current vs cur now) w =
      next_content_version_no vs w := by
  unfold next_content_version_no
  rw [close_content_filter, close_content_version_no_map]

/-- Term-content mirror of `chain_closed_prefix`. -/
theorem content_chain_closed_prefix (l : List TermContentVersion)
    (b : TermContentVersion) (h : closedContentChain (l ++ [b])) :
    ∀ x ∈ l, x.valid_to ≠ none := by
  induction l with
  | nil => simp
  | cons v vs ih =>
    intro x hx
    rw [List.cons_append] at h
    rcases List.chain'_cons'.mp h with ⟨hR, htail⟩
    rcases List.mem_cons.mp hx with rfl | hx
    · have hhead : ∃ y, (vs ++ [b]).head? = some y := by cases vs <;> simp
      obtain ⟨y, hy⟩ := hhead
      obtain ⟨t, ht, _⟩ := hR y (by simp [hy])
      simp [ht]
    · exact ih htail x hx

/-- Term-content mirror of `ensure_value_row_fresh`. -/
theorem ensure_content_row_fresh (db : TermDB) (term_id : Nat)
    (h : contentRowsFor db term_id = []) :
    ensure_content_row db term_id =
      ({ db with
          contents := db.contents ++ [⟨db.next_id, term_id, none⟩],
          next_id := db.next_id + 1 },
       ⟨db.next_id, term_id, none⟩) := by
  unfold contentRowsFor at h
  unfold ensure_content_row scalar_one_or_none
  rw [h]

/-- Term-content mirror of `ensure_value_row_existing`. -/
theorem ensure_content_row_existing (db : TermDB) (term_id : Nat) (c0 : TermContent)
    (h : contentRowsFor db term_id = [c0]) :
    ensure_content_row db term_id = (db, c0) := by
  unfold contentRowsFor at h
  unfold ensure_content_row scalar_one_or_none
  rw [h]

/-- Term-content mirror of `write_new_version_fresh`. -/
theorem upsert_term_content_fresh (db : TermDB) (now term_id : Nat)
    (payload : TermContentUpdate)
    (hWF : termDbWF db) (h : contentRowsFor db term_id = []) :
    upsert_term_content db now term_id payload =
      ({ db with
          contents := db.contents ++ [⟨db.next_id, term_id, some (db.next_id + 1)⟩],
          content_versions := db.content_versions ++
            [⟨db.next_id + 1, db.next_id, 1, payload.body_markdown, payload.body_json,
              now, none, payload.author, payload.reason⟩],
          next_id := db.next_id + 2 },
       db.next_id + 1) := by
  obtain ⟨hWF1, hWF2, hWF3, hWF4⟩ := hWF
  unfold upsert_term_content
  rw [ensure_content_row_fresh db term_id h]
  have hfilter : db.content_versions.filter (·.content_id == db.next_id) = [] := by
    rw [List.filter_eq_nil_iff]
    intro v hv
    have := hWF2 v hv
    simp only [beq_iff_eq]
    omega
  have hnext : next_content_version_no db.content_versions db.next_id = 1 := by
    unfold next_content_version_no
    rw [hfilter]
    rfl
  have hmapfix :
      db.contents.map (fun c =>
        if c.content_id = db.next_id then
          { c with current_version_id := some (db.next_id + 1) } else c) = db.contents := by
    apply map_eq_self_of_fix
    intro x hx
    have := hWF4 x hx
    have hne : ¬ x.content_id = db.next_id := by omega
    simp [hne]
  simp only [close_content_none, hnext]
  simp [hmapfix]

/-- Term-content mirror of `write_new_version_existing`. -/
theorem upsert_term_content_existing (db : TermDB) (now term_id : Nat)
    (payload : TermContentUpdate) (c0 : TermContent)
    (h : contentRowsFor db term_id = [c0]) :
    upsert_term_content db now term_id payload =
      ({ db with
          content_versions :=
            close_content_current db.content_versions c0.current_version_id now ++
            [⟨db.next_id, c0.content_id,
              next_content_version_no
                (close_content_current db.content_versions c0.current_version_id now)
                c0.content_id,
              payload.body_markdown, payload.body_json, now, none,
              payload.author, payload.reason⟩],
          contents := db.contents.map fun c =>
            if c.content_id == c0.content_id then
              { c with current_version_id := some db.next_id } else c,
          next_id := db.next_id + 1 },
       db.next_id) := by
  unfold upsert_term_content
  rw [ensure_content_row_existing db term_id c0 h]

/-- Term-content mirror of `chain_step`: one `upsert_term_content` run at
an instant past every recorded timestamp preserves well-formedness and
extends the per-term content chain by one version. -/
theorem term_chain_step (db : TermDB) (now T N term_id : Nat)
    (payload : TermContentUpdate)
    (hWF : termDbWF db) (hInv : termChainInv db term_id T N) (hT : T ≤ now) :
    termDbWF (upsert_term_content db now term_id payload).1 ∧
    termChainInv (upsert_term_content db now term_id payload).1 term_id now (N + 1) := by
  obtain ⟨hWF1, hWF2, hWF3, hWF4⟩ := hWF
  cases N with
  | zero =>
    unfold termChainInv at hInv
    rw [upsert_term_content_fresh db now term_id payload ⟨hWF1, hWF2, hWF3, hWF4⟩ hInv]
    have hfilter : db.content_versions.filter (·.content_id == db.next_id) = [] := by
      rw [List.filter_eq_nil_iff]
      intro v hv
      have := hWF2 v hv
      simp only [beq_iff_eq]
      omega
    constructor
    · refine ⟨?_, ?_, ?_, ?_⟩
      · intro v hv
        dsimp only at hv ⊢
        rcases List.mem_append.mp hv with hv | hv
        · have := hWF1 v hv; omega
        · simp only [List.mem_singleton] at hv; subst hv; dsimp only; omega
      · intro v hv
        dsimp only at hv ⊢
        rcases List.mem_append.mp hv with hv | hv
        · have := hWF2 v hv; omega
        · simp only [List.mem_singleton] at hv; subst hv; dsimp only; omega
      · dsimp only
        rw [List.map_append]
        simp only [List.map_cons, List.map_nil]
        rw [List.nodup_append]
        refine ⟨hWF3, List.nodup_singleton _, ?_⟩
        intro x hx
        obtain ⟨u, hu, he⟩ := List.mem_map.mp hx
        have := hWF1 u hu
        simp only [List.mem_singleton]
        omega
      · intro w hw
        dsimp only at hw ⊢
        rcases List.mem_append.mp hw with hw | hw
        · have := hWF4 w hw; omega
        · simp only [List.mem_singleton] at hw; subst hw; dsimp only; omega
    · unfold termChainInv
      refine ⟨⟨db.next_id, term_id, some (db.next_id + 1)⟩,
        ⟨db.next_id + 1, db.next_id, 1, payload.body_markdown, payload.body_json,
          now, none, payload.author, payload.reason⟩, ?_, ?_, ?_, rfl, rfl, ?_, ?_⟩
      · unfold contentRowsFor at hInv ⊢
        dsimp only
        simp only [List.filter_append, hInv, List.nil_append]
        simp
      · unfold contentVersionsFor
        dsimp only
        simp only [List.filter_append, hfilter, List.nil_append]
        simp [List.range']
      · unfold contentVersionsFor
        dsimp only
        simp only [List.filter_append, hfilter, List.nil_append]
        simp
      · unfold contentVersionsFor
        dsimp only
        simp only [List.filter_append, hfilter, List.nil_append]
        simp [closedContentChain]
      · unfold contentVersionsFor
        dsimp only
        simp only [List.filter_append, hfilter, List.nil_append]
        intro v hv
        simp at hv
        subst hv
        simp
  | succ N =>
    unfold termChainInv at hInv
    obtain ⟨c0, vlast, hrows, hnos, hlast, hcur, hopen, hchain, hstamps⟩ := hInv
    have hc0mem : c0 ∈ db.contents := by
      have : c0 ∈ contentRowsFor db term_id := by rw [hrows]; simp
      exact List.mem_of_mem_filter this
    have hwlt : c0.content_id < db.next_id := hWF4 c0 hc0mem
    rw [upsert_term_content_existing db now term_id payload c0 hrows]
    obtain ⟨ws, hws⟩ := getLast?_split _ _ hlast
    have hclosed_pre : ∀ x ∈ ws, x.valid_to ≠ none := by
      intro x hx
      exact content_chain_closed_prefix ws vlast (hws ▸ hchain) x hx
    have hclose_ent :
        close_content_current (contentVersionsFor db c0.content_id)
          c0.current_version_id now =
          ws ++ [{ vlast with valid_to := some now }] := by
      rw [hcur, hws, close_content_append, close_content_of_closed ws _ _ hclosed_pre,
        close_content_open_singleton vlast now hopen]
    have hnext : next_content_version_no
        (close_content_current db.content_versions c0.current_version_id now)
        c0.content_id = N + 2 := by
      rw [next_content_version_no_closed]
      unfold next_content_version_no
      have hent : db.content_versions.filter (·.content_id == c0.content_id) =
          contentVersionsFor db c0.content_id := rfl
      rw [hent, hnos, foldr_max_range']
      omega
    have hentity :
        contentVersionsFor (upsert_term_content db now term_id payload).1 c0.content_id =
        (ws ++ [{ vlast with valid_to := some now }]) ++
          [⟨db.next_id, c0.content_id, N + 2, payload.body_markdown, payload.body_json,
            now, none, payload.author, payload.reason⟩] := by
      rw [upsert_term_content_existing db now term_id payload c0 hrows]
      unfold contentVersionsFor
      dsimp only
      rw [List.filter_append, close_content_filter]
      have hent : db.content_versions.filter (·.content_id == c0.content_id) =
          contentVersionsFor db c0.content_id := rfl
      rw [hent, hclose_ent, hnext]
      simp
    rw [upsert_term_content_existing db now term_id payload c0 hrows] at hentity
    constructor
    · refine ⟨?_, ?_, ?_, ?_⟩
      · intro v hv
        dsimp only at hv ⊢
        rcases List.mem_append.mp hv with hv | hv
        · have := forall_lt_of_map_eq (·.content_version_id) db.content_versions _ db.next_id
            (close_content_id_map db.content_versions c0.current_version_id now) hWF1 v hv
          dsimp only at this
          omega
        · simp only [List.mem_singleton] at hv; subst hv; dsimp only; omega
      · intro v hv
        dsimp only at hv ⊢
        rcases List.mem_append.mp hv with hv | hv
        · have := forall_lt_of_map_eq (·.content_id) db.content_versions _ db.next_id
            (close_content_owner_map db.content_versions c0.current_version_id now) hWF2 v hv
          dsimp only at this
          omega
        · simp only [List.mem_singleton] at hv; subst hv; dsimp only; omega
      · dsimp only
        rw [List.map_append, close_content_id_map]
        simp only [List.map_cons, List.map_nil]
        rw [List.nodup_append]
        refine ⟨hWF3, List.nodup_singleton _, ?_⟩
        intro x hx
        obtain ⟨u, hu, he⟩ := List.mem_map.mp hx
        have := hWF1 u hu
        simp only [List.mem_singleton]
        omega
      · intro w hw
        dsimp only at hw ⊢
        have hmapped : (db.contents.map fun x =>
            if x.content_id == c0.content_id then
              { x with current_version_id := some db.next_id } else x).map (·.content_id) =
            db.contents.map (·.content_id) := by
          apply map_map_eq_of_comp
          intro x
          split <;> rfl
        have := forall_lt_of_map_eq (·.content_id) db.contents _ db.next_id hmapped hWF4 w hw
        dsimp only at this
        omega
    · unfold termChainInv
      refine ⟨{ c0 with current_version_id := some db.next_id },
        ⟨db.next_id, c0.content_id, N + 2, payload.body_markdown, payload.body_json,
          now, none, payload.author, payload.reason⟩, ?_, ?_, ?_, rfl, rfl, ?_, ?_⟩
      · unfold contentRowsFor at hrows ⊢
        dsimp only
        rw [filter_map_comm _ _ (fun x => by split <;> rfl) db.contents, hrows]
        simp
      · dsimp only
        rw [hentity]
        rw [List.map_append, List.map_append]
        simp only [List.map_cons, List.map_nil]
        have hnos2 := hnos
        rw [hws, List.map_append] at hnos2
        simp only [List.map_cons, List.map_nil] at hnos2
        have hmapws : (ws.map (·.version_no)) ++
            [({ vlast with valid_to := some now } : TermContentVersion).version_no] =
            List.range' 1 (N + 1) := by
          dsimp only
          exact hnos2
        rw [hmapws]
        have hrc := range'_snoc 1 (N + 1)
        have h2 : 1 + (N + 1) = N + 2 := by omega
        rw [h2] at hrc
        rw [hrc]
      · dsimp only
        rw [hentity]
        simp
      · dsimp only
        rw [hentity]
        unfold closedContentChain
        apply chain'_snoc
        · apply chain'_replace_last ws vlast _ (hws ▸ hchain)
          intro x hx
          obtain ⟨t, ht, hle⟩ := hx
          exact ⟨t, ht, hle⟩
        · intro x hx
          simp at hx
          subst hx
          exact ⟨now, rfl, le_refl now⟩
      · dsimp only
        rw [hentity]
        intro v hv
        rcases List.mem_append.mp hv with hv | hv
        · rcases List.mem_append.mp hv with hv | hv
          · have hvent : v ∈ contentVersionsFor db c0.content_id := by
              rw [hws]; exact List.mem_append.mpr (Or.inl hv)
            obtain ⟨hf, hto⟩ := hstamps v hvent
            exact ⟨le_trans hf hT, fun t ht => le_trans (hto t ht) hT⟩
          · simp only [List.mem_singleton] at hv
            subst hv
            constructor
            · have hvent : vlast ∈ contentVersionsFor db c0.content_id := by
                rw [hws]; simp
              exact le_trans (hstamps vlast hvent).1 hT
            · intro t ht
              simp at ht
              omega
        · simp only [List.mem_singleton] at hv
          subst hv
          exact ⟨le_refl now, fun t ht => by simp at ht⟩

/-- Sequencing for term content: a monotonically timestamped run of
`upsertTermContent` calls grows the per-term chain by one per call. -/
theorem runUpserts_chain (term_id : Nat) :
    ∀ ops db T N,
      termDbWF db → termChainInv db term_id T N →
      List.Chain (· ≤ ·) T (ops.map Prod.fst) →
      termDbWF (runUpserts term_id db ops) ∧
        termChainInv (runUpserts term_id db ops)
          term_id (ops.foldl (fun _ p => p.1) T) (N + ops.length) := by
  intro ops
  induction ops with
  | nil =>
    intro db T N hWF hInv hclock
    exact ⟨hWF, by simpa using hInv⟩
  | cons p rest ih =>
    intro db T N hWF hInv hclock
    rw [List.map_cons, List.chain_cons] at hclock
    obtain ⟨hTp, hclock'⟩ := hclock
    have hstep := term_chain_step db p.1 T N term_id p.2 hWF hInv hTp
    have hres := ih (upsert_term_content db p.1 term_id p.2).1 p.1 (N + 1)
      hstep.1 hstep.2 hclock'
    unfold runUpserts
    refine ⟨hres.1, ?_⟩
    have hlen : N + 1 + rest.length = N + (rest.length + 1) := by omega
    rw [hlen] at hres
    simpa using hres.2

/-- Claim C1: for every entity, after N accepted `setValue` writes (any
variants, monotone clock; in this program only unified writes can be
accepted, every legacy variant failing at version construction) starting
from no value row, the chain invariant holds at N: the value row is unique, its versions carry version numbers
1..N in order (no gaps, no duplicates, each computed as max + 1, or 1 for
the first write), the current pointer names the version numbered N whose
`valid_to` is null, and every version below N is closed at a time no
later than its successor opened.  The same holds for term content after N
`upsertTermContent` calls. -/
theorem version_chain_after_writes
    (tt ti ic : String) (item : CustomMetaItem) (ops : List (Nat × SetOp))
    (db db' : MetaDB) (T : Nat)
    (hWF : dbWF db) (hfind : find_item db ic = some item)
    (hfresh : valueRowsFor db tt ti item.item_id = [])
    (hclock : List.Chain (· ≤ ·) T (ops.map Prod.fst))
    (hrun : runWrites tt ti ic db ops = some db') :
    chainInv db' tt ti item.item_id (ops.foldl (fun _ p => p.1) T) ops.length ∧
    ∀ (term_id : Nat) (tops : List (Nat × TermContentUpdate)) (tdb : TermDB) (S : Nat),
      termDbWF tdb → contentRowsFor tdb term_id = [] →
      List.Chain (· ≤ ·) S (tops.map Prod.fst) →
      termChainInv (runUpserts term_id tdb tops) term_id
        (tops.foldl (fun _ p => p.1) S) tops.length := by
  constructor
  · have h := runWrites_chain tt ti ic item ops db db' T 0 hWF hfind
      (by unfold chainInv; exact hfresh) hclock hrun
    simpa using h.2
  · intro term_id tops tdb S htWF htfresh htclock
    have h := runUpserts_chain term_id tops tdb S 0 htWF
      (by unfold termChainInv; exact htfresh) htclock
    simpa using h.2

/-- Witness for C1: two primitive writes at instants 5 and 7 on the demo
database, and two term-content upserts at instants 3 and 4 on the empty
term store, each ending with a two-link chain. -/
theorem version_chain_after_writes_witness :
    chainInv demoChainDB "table" "orders" 1 7 2 ∧
    termChainInv (runUpserts 9 demoTermDB demoTermOps) 9 4 2 := by
  have h := version_chain_after_writes "table" "orders" "retention_days"
    ⟨1, "retention_days", "SINGLE"⟩ demoWriteOps demoDB demoChainDB 0
    (by unfold dbWF; decide) (by rfl) (by rfl)
    (by simp [demoWriteOps, List.chain_cons]) (by rfl)
  exact ⟨h.1, h.2 9 demoTermOps demoTermDB 0 (by unfold termDbWF; decide) (by rfl)
    (by simp [demoTermOps, List.chain_cons])⟩

/-- Closing preserves the (version number, stored document) projection. -/
theorem close_current_doc_map (vs : List CustomMetaValueVersion)
    (cur : Option Nat) (now : Nat) :
    (close_current vs cur now).map (fun v => (v.version_no, v.value_json)) =
      vs.map (fun v => (v.version_no, v.value_json)) := by
  cases cur with
  | none => rfl
  | some pv =>
    unfold close_current
    exact map_map_eq_of_comp _ _ (fun a => by split <;> rfl) vs

/-- A first write leaves the entity with exactly one version carrying the
written document. -/
theorem write_new_version_docs_fresh (db : MetaDB) (now : Nat) (tt ti : String)
    (item : CustomMetaItem) (vj : Option Doc) (a r : Option String)
    (hWF : dbWF db) (h : valueRowsFor db tt ti item.item_id = []) :
    (entityVersions (write_new_version db now tt ti item vj a r).1 db.next_id).map
        (fun v => (v.version_no, v.value_json)) = [(1, vj)] := by
  rw [write_new_version_fresh db now tt ti item vj a r hWF h]
  unfold entityVersions
  dsimp only
  rw [List.filter_append]
  have hfilter : db.versions.filter (·.value_id == db.next_id) = [] := by
    rw [List.filter_eq_nil_iff]
    intro v hv
    have := hWF.2.1 v hv
    simp only [beq_iff_eq]
    omega
  rw [hfilter]
  simp

/-- A later write appends exactly one version carrying the written
document, preserving every earlier (number, document) pair. -/
theorem write_new_version_docs_existing (db : MetaDB) (now : Nat) (tt ti : String)
    (item : CustomMetaItem) (vj : Option Doc) (a r : Option String)
    (mv0 : CustomMetaValue) (h : valueRowsFor db tt ti item.item_id = [mv0]) :
    (entityVersions (write_new_version db now tt ti item vj a r).1 mv0.value_id).map
        (fun v => (v.version_no, v.value_json)) =
      (entityVersions db mv0.value_id).map (fun v => (v.version_no, v.value_json)) ++
        [(next_version_no (close_current db.versions mv0.current_version_id now)
            mv0.value_id, vj)] := by
  rw [write_new_version_existing db now tt ti item vj a r mv0 h]
  unfold entityVersions
  dsimp only
  rw [List.filter_append, close_current_filter_value, List.map_append]
  congr 1
  · exact close_current_doc_map _ _ _
  · simp

/-- Term-content mirror of `close_current_doc_map`. -/
theorem close_content_doc_map (vs : List TermContentVersion)
    (cur : Option Nat) (now : Nat) :
    (close_content_current vs cur now).map (fun v => (v.version_no, v.body_markdown)) =
      vs.map (fun v => (v.version_no, v.body_markdown)) := by
  cases cur with
  | none => rfl
  | some pv =>
    unfold close_content_current
    exact map_map_eq_of_comp _ _ (fun a => by split <;> rfl) vs

/-- Term-content mirror of `write_new_version_docs_fresh`. -/
theorem upsert_docs_fresh (db : TermDB) (now term_id : Nat)
    (payload : TermContentUpdate)
    (hWF : termDbWF db) (h : contentRowsFor db term_id = []) :
    (contentVersionsFor (upsert_term_content db now term_id payload).1 db.next_id).map
        (fun v => (v.version_no, v.body_markdown)) = [(1, payload.body_markdown)] := by
  rw [upsert_term_content_fresh db now term_id payload hWF h]
  unfold contentVersionsFor
  dsimp only
  rw [List.filter_append]
  have hfilter : db.content_versions.filter (·.content_id == db.next_id) = [] := by
    rw [List.filter_eq_nil_iff]
    intro v hv
    have := hWF.2.1 v hv
    simp only [beq_iff_eq]
    omega
  rw [hfilter]
  simp

/-- Term-content mirror of `write_new_version_docs_existing`. -/
theorem upsert_docs_existing (db : TermDB) (now term_id : Nat)
    (payload : TermContentUpdate) (c0 : TermContent)
    (h : contentRowsFor db term_id = [c0]) :
    (contentVersionsFor (upsert_term_content db now term_id payload).1 c0.content_id).map
        (fun v => (v.version_no, v.body_markdown)) =
      (contentVersionsFor db c0.content_id).map (fun v => (v.version_no, v.body_markdown)) ++
        [(next_content_version_no
            (close_content_current db.content_versions c0.current_version_id now)
            c0.content_id, payload.body_markdown)] := by
  rw [upsert_term_content_existing db now term_id payload c0 h]
  unfold contentVersionsFor
  dsimp only
  rw [List.filter_append, close_content_filter, List.map_append]
  congr 1
  · exact close_content_doc_map _ _ _
  · simp

/-- Claim C9: there is no payload-equality short-circuit.  Two
consecutive accepted `setValue` writes with the identical payload —
through the unified write path, the one whose version construction
completes — both succeed and leave the entity with two distinct versions
numbered 1 and 2, each storing that same payload; likewise two identical
`upsertTermContent` calls create two distinct content versions. -/
theorem identical_writes_create_two_versions
    (db : MetaDB) (now1 now2 : Nat) (tt ti ic : String) (item : CustomMetaItem)
    (s : String) (a r : Option String)
    (hWF : dbWF db) (hkind : get_meta_item_type_kind ic = some .STRING)
    (hfind : find_item db ic = some item)
    (hfresh : valueRowsFor db tt ti item.item_id = []) :
    (∃ db1 v1 db2 v2 w,
      set_meta_value_unified db now1 tt ti ic
        ⟨some "STRING", some (.jstr s), none, none, none⟩ a r = .ok db1 v1 ∧
      set_meta_value_unified db1 now2 tt ti ic
        ⟨some "STRING", some (.jstr s), none, none, none⟩ a r = .ok db2 v2 ∧
      v1 ≠ v2 ∧
      (entityVersions db2 w).map (fun v => (v.version_no, v.value_json)) =
        [(1, some (.stringDoc s)),
         (2, some (.stringDoc s))]) ∧
    (∀ (tdb : TermDB) (m1 m2 term_id : Nat) (q : TermContentUpdate),
      termDbWF tdb → contentRowsFor tdb term_id = [] →
      ∃ cdb1 c1 cdb2 c2 cw,
        upsert_term_content tdb m1 term_id q = (cdb1, c1) ∧
        upsert_term_content cdb1 m2 term_id q = (cdb2, c2) ∧
        c1 ≠ c2 ∧
        (contentVersionsFor cdb2 cw).map (fun v => (v.version_no, v.body_markdown)) =
          [(1, q.body_markdown), (2, q.body_markdown)]) := by
  constructor
  · have hw1 := write_new_version_fresh db now1 tt ti item
      (some (Doc.stringDoc s)) a r hWF hfresh
    have hset1 : set_meta_value_unified db now1 tt ti ic
        ⟨some "STRING", some (.jstr s), none, none, none⟩ a r =
        .ok (write_new_version db now1 tt ti item
          (some (Doc.stringDoc s)) a r).1
          (write_new_version db now1 tt ti item
          (some (Doc.stringDoc s)) a r).2 := by
      unfold set_meta_value_unified
      rw [hkind, hfind]
      simp [validate_unified_value_data, enrich_value_data, MetaTypeKind.value]
    have hfind1 : find_item (write_new_version db now1 tt ti item
        (some (Doc.stringDoc s)) a r).1 ic = some item := by
      unfold find_item at hfind ⊢
      rw [write_new_version_items]
      exact hfind
    have hrows1 : valueRowsFor (write_new_version db now1 tt ti item
        (some (Doc.stringDoc s)) a r).1 tt ti item.item_id =
        [⟨db.next_id, tt, ti, item.item_id, some (db.next_id + 1)⟩] := by
      rw [hw1]
      unfold valueRowsFor at hfresh ⊢
      dsimp only
      rw [List.filter_append, hfresh]
      simp
    have hset2 : set_meta_value_unified (write_new_version db now1 tt ti item
        (some (Doc.stringDoc s)) a r).1 now2 tt ti ic
        ⟨some "STRING", some (.jstr s), none, none, none⟩ a r =
        .ok (write_new_version (write_new_version db now1 tt ti item
          (some (Doc.stringDoc s)) a r).1 now2 tt ti item
          (some (Doc.stringDoc s)) a r).1
          (write_new_version (write_new_version db now1 tt ti item
          (some (Doc.stringDoc s)) a r).1 now2 tt ti item
          (some (Doc.stringDoc s)) a r).2 := by
      unfold set_meta_value_unified
      rw [hkind, hfind1]
      simp [validate_unified_value_data, enrich_value_data, MetaTypeKind.value]
    have hv1 : (write_new_version db now1 tt ti item
        (some (Doc.stringDoc s)) a r).2 = db.next_id + 1 := by
      rw [hw1]
    have hv2 : (write_new_version (write_new_version db now1 tt ti item
        (some (Doc.stringDoc s)) a r).1 now2 tt ti item
        (some (Doc.stringDoc s)) a r).2 = db.next_id + 2 := by
      rw [write_new_version_existing _ now2 tt ti item
        (some (Doc.stringDoc s)) a r _ hrows1]
      rw [hw1]
    have hno2 : next_version_no
        (close_current (write_new_version db now1 tt ti item
          (some (Doc.stringDoc s)) a r).1.versions
          (some (db.next_id + 1)) now2) db.next_id = 2 := by
      rw [hw1]
      dsimp only
      rw [close_current_append]
      rw [close_current_skip db.versions (db.next_id + 1) now2 (by
        intro v hv
        have := hWF.1 v hv
        omega)]
      rw [show close_current
          [(⟨db.next_id + 1, db.next_id, 1, some (Doc.stringDoc s),
            now1, none, a, r⟩ : CustomMetaValueVersion)]
          (some (db.next_id + 1)) now2 =
          [⟨db.next_id + 1, db.next_id, 1, some (Doc.stringDoc s),
            now1, some now2, a, r⟩] from by
        simp [close_current]]
      unfold next_version_no
      rw [List.filter_append]
      have hfilter : db.versions.filter (·.value_id == db.next_id) = [] := by
        rw [List.filter_eq_nil_iff]
        intro v hv
        have := hWF.2.1 v hv
        simp only [beq_iff_eq]
        omega
      rw [hfilter]
      simp
    have hdocs : (entityVersions (write_new_version (write_new_version db now1 tt ti
        item (some (Doc.stringDoc s)) a r).1 now2 tt ti
        item (some (Doc.stringDoc s)) a r).1
        db.next_id).map (fun v => (v.version_no, v.value_json)) =
        [(1, some (.stringDoc s)), (2, some (.stringDoc s))] := by
      have hd := write_new_version_docs_existing
        (write_new_version db now1 tt ti item
          (some (Doc.stringDoc s)) a r).1 now2 tt ti item
        (some (Doc.stringDoc s)) a r
        ⟨db.next_id, tt, ti, item.item_id, some (db.next_id + 1)⟩ hrows1
      dsimp only at hd
      rw [hno2] at hd
      rw [hd]
      rw [write_new_version_docs_fresh db now1 tt ti item
        (some (Doc.stringDoc s)) a r hWF hfresh]
      rfl
    refine ⟨_, _, _, _, db.next_id, hset1, hset2, ?_, hdocs⟩
    rw [hv1, hv2]
    omega
  · intro tdb m1 m2 term_id q htWF htfresh
    have hu1 := upsert_term_content_fresh tdb m1 term_id q htWF htfresh
    have hrows1 : contentRowsFor (upsert_term_content tdb m1 term_id q).1 term_id =
        [⟨tdb.next_id, term_id, some (tdb.next_id + 1)⟩] := by
      rw [hu1]
      unfold contentRowsFor at htfresh ⊢
      dsimp only
      rw [List.filter_append, htfresh]
      simp
    have hc1 : (upsert_term_content tdb m1 term_id q).2 = tdb.next_id + 1 := by
      rw [hu1]
    have hc2 : (upsert_term_content (upsert_term_content tdb m1 term_id q).1
        m2 term_id q).2 = tdb.next_id + 2 := by
      rw [upsert_term_content_existing _ m2 term_id q _ hrows1]
      rw [hu1]
    have hno2 : next_content_version_no
        (close_content_current (upsert_term_content tdb m1 term_id q).1.content_versions
          (some (tdb.next_id + 1)) m2) tdb.next_id = 2 := by
      rw [hu1]
      dsimp only
      rw [close_content_append]
      rw [show close_content_current tdb.content_versions (some (tdb.next_id + 1)) m2 =
          tdb.content_versions from by
        unfold close_content_current
        apply map_eq_self_of_fix
        intro v hv
        have := htWF.1 v hv
        have hne : (v.content_version_id == tdb.next_id + 1) = false := by
          simp only [beq_eq_false_iff_ne, ne_eq]
          omega
        simp [hne]]
      rw [show close_content_current
          [(⟨tdb.next_id + 1, tdb.next_id, 1, q.body_markdown, q.body_json,
            m1, none, q.author, q.reason⟩ : TermContentVersion)]
          (some (tdb.next_id + 1)) m2 =
          [⟨tdb.next_id + 1, tdb.next_id, 1, q.body_markdown, q.body_json,
            m1, some m2, q.author, q.reason⟩] from by
        simp [close_content_current]]
      unfold next_content_version_no
      rw [List.filter_append]
      have hfilter : tdb.content_versions.filter (·.content_id == tdb.next_id) = [] := by
        rw [List.filter_eq_nil_iff]
        intro v hv
        have := htWF.2.1 v hv
        simp only [beq_iff_eq]
        omega
      rw [hfilter]
      simp
    have hdocs : (contentVersionsFor (upsert_term_content
        (upsert_term_content tdb m1 term_id q).1 m2 term_id q).1 tdb.next_id).map
        (fun v => (v.version_no, v.body_markdown)) =
        [(1, q.body_markdown), (2, q.body_markdown)] := by
      have hd := upsert_docs_existing (upsert_term_content tdb m1 term_id q).1
        m2 term_id q ⟨tdb.next_id, term_id, some (tdb.next_id + 1)⟩ hrows1
      dsimp only at hd
      rw [hno2] at hd
      rw [hd]
      rw [upsert_docs_fresh tdb m1 term_id q htWF htfresh]
      rfl
    refine ⟨(upsert_term_content tdb m1 term_id q).1,
      (upsert_term_content tdb m1 term_id q).2,
      (upsert_term_content (upsert_term_content tdb m1 term_id q).1 m2 term_id q).1,
      (upsert_term_content (upsert_term_content tdb m1 term_id q).1 m2 term_id q).2,
      tdb.next_id, rfl, rfl, ?_, hdocs⟩
    rw [hc1, hc2]
    omega

/-- Witness for C9: writing the same string payload twice through the
unified path on the demo database. -/
theorem identical_writes_create_two_versions_witness :
    (∃ db1 v1 db2 v2 w,
      set_meta_value_unified demoDB 5 "table" "orders" "table_description"
        ⟨some "STRING", some (.jstr "desc"), none, none, none⟩ none none = .ok db1 v1 ∧
      set_meta_value_unified db1 6 "table" "orders" "table_description"
        ⟨some "STRING", some (.jstr "desc"), none, none, none⟩ none none = .ok db2 v2 ∧
      v1 ≠ v2 ∧
      (entityVersions db2 w).map (fun v => (v.version_no, v.value_json)) =
        [(1, some (.stringDoc "desc")), (2, some (.stringDoc "desc"))]) ∧
    (∀ (tdb : TermDB) (m1 m2 term_id : Nat) (q : TermContentUpdate),
      termDbWF tdb → contentRowsFor tdb term_id = [] →
      ∃ cdb1 c1 cdb2 c2 cw,
        upsert_term_content tdb m1 term_id q = (cdb1, c1) ∧
        upsert_term_content cdb1 m2 term_id q = (cdb2, c2) ∧
        c1 ≠ c2 ∧
        (contentVersionsFor cdb2 cw).map (fun v => (v.version_no, v.body_markdown)) =
          [(1, q.body_markdown), (2, q.body_markdown)]) := by
  exact identical_writes_create_two_versions demoDB 5 6 "table" "orders"
    "table_description" ⟨2, "table_description", "SINGLE"⟩ "desc" none none
    (by unfold dbWF; decide) (by rfl) (by rfl) (by rfl)

/-- Inversion of a successful unique-row lookup. -/
theorem scalar_one_eq_some {p : α → Bool} {l : List α} {x : α}
    (h : scalar_one_or_none p l = some x) : l.filter p = [x] := by
  unfold scalar_one_or_none at h
  split at h
  · simp_all
  · simp at h

/-- Evaluating the read path once each lookup is known: unique item row,
unique value row, current pointer, and a unique version row that carries
a unified document, which the read returns without ever reaching the
migration fallback. -/
theorem get_meta_value_unified_eq (dbx : MetaDB) (tt ti ic : String)
    (item : CustomMetaItem) (mv : CustomMetaValue) (cvid : Nat)
    (vrow : CustomMetaValueVersion) (d : Doc)
    (h1 : find_item dbx ic = some item)
    (h2 : scalar_one_or_none (fun v => v.target_type == tt && v.target_id == ti &&
      v.item_id == item.item_id) dbx.values = some mv)
    (h3 : mv.current_version_id = some cvid)
    (h4 : scalar_one_or_none (fun v => v.version_id == cvid) dbx.versions = some vrow)
    (h5 : vrow.value_json = some d) :
    get_meta_value_unified dbx tt ti ic = .ok (some d) := by
  unfold get_meta_value_unified
  simp only [h1, h2, h3, h4, h5]

/-- Reading back immediately after a unified write: the new current
version stores the enriched document in `value_json`, and the read path
returns exactly that document. -/
theorem get_after_unified_write
    (db : MetaDB) (now : Nat) (tt ti ic : String) (item : CustomMetaItem)
    (d : Doc) (a r : Option String)
    (hWF : dbWF db) (hfind : find_item db ic = some item)
    (hrows : valueRowsFor db tt ti item.item_id = [] ∨
      ∃ mv0, valueRowsFor db tt ti item.item_id = [mv0]) :
    get_meta_value_unified
      (write_new_version db now tt ti item (some d) a r).1 tt ti ic =
      .ok (some d) := by
  obtain ⟨hWF1, hWF2, hWF3, hWF4⟩ := hWF
  rcases hrows with hfresh | ⟨mv0, hone⟩
  · rw [write_new_version_fresh db now tt ti item (some d) a r
      ⟨hWF1, hWF2, hWF3, hWF4⟩ hfresh]
    have hval : scalar_one_or_none
        (fun mv => mv.target_type == tt && mv.target_id == ti &&
          mv.item_id == item.item_id)
        (db.values ++ [⟨db.next_id, tt, ti, item.item_id, some (db.next_id + 1)⟩]) =
        some ⟨db.next_id, tt, ti, item.item_id, some (db.next_id + 1)⟩ := by
      unfold valueRowsFor at hfresh
      unfold scalar_one_or_none
      rw [List.filter_append, hfresh]
      simp
    have hver : scalar_one_or_none (fun v => v.version_id == db.next_id + 1)
        (db.versions ++
          [⟨db.next_id + 1, db.next_id, 1, some d, now, none, a, r⟩]) =
        some ⟨db.next_id + 1, db.next_id, 1, some d, now, none, a, r⟩ := by
      unfold scalar_one_or_none
      rw [List.filter_append]
      have h0 : db.versions.filter (fun v => v.version_id == db.next_id + 1) = [] := by
        rw [List.filter_eq_nil_iff]
        intro v hv
        have := hWF1 v hv
        simp only [beq_iff_eq]
        omega
      rw [h0]
      simp
    refine get_meta_value_unified_eq _ tt ti ic item
      ⟨db.next_id, tt, ti, item.item_id, some (db.next_id + 1)⟩ (db.next_id + 1)
      ⟨db.next_id + 1, db.next_id, 1, some d, now, none, a, r⟩ d
      ?_ ?_ rfl ?_ rfl
    · exact hfind
    · exact hval
    · exact hver
  · rw [write_new_version_existing db now tt ti item (some d) a r mv0 hone]
    have hval : scalar_one_or_none
        (fun mv => mv.target_type == tt && mv.target_id == ti &&
          mv.item_id == item.item_id)
        (db.values.map fun w =>
          if w.value_id == mv0.value_id then
            { w with current_version_id := some db.next_id } else w) =
        some { mv0 with current_version_id := some db.next_id } := by
      unfold valueRowsFor at hone
      unfold scalar_one_or_none
      rw [filter_map_comm _ _ (fun x => by split <;> rfl) db.values, hone]
      simp
    have hver : scalar_one_or_none (fun v => v.version_id == db.next_id)
        (close_current db.versions mv0.current_version_id now ++
          [⟨db.next_id, mv0.value_id,
            next_version_no (close_current db.versions mv0.current_version_id now)
              mv0.value_id, some d, now, none, a, r⟩]) =
        some ⟨db.next_id, mv0.value_id,
          next_version_no (close_current db.versions mv0.current_version_id now)
            mv0.value_id, some d, now, none, a, r⟩ := by
      unfold scalar_one_or_none
      rw [List.filter_append]
      have h0 : (close_current db.versions mv0.current_version_id now).filter
          (fun v => v.version_id == db.next_id) = [] := by
        rw [List.filter_eq_nil_iff]
        intro v hv
        have := forall_lt_of_map_eq (·.version_id) db.versions _ db.next_id
          (close_current_id_map db.versions mv0.current_version_id now) hWF1 v hv
        dsimp only at this
        simp only [beq_iff_eq]
        omega
      rw [h0]
      simp
    refine get_meta_value_unified_eq _ tt ti ic item
      ⟨mv0.value_id, mv0.target_type, mv0.target_id, mv0.item_id, some db.next_id⟩
      db.next_id
      ⟨db.next_id, mv0.value_id,
        next_version_no (close_current db.versions mv0.current_version_id now)
          mv0.value_id, some d, now, none, a, r⟩ d
      ?_ ?_ rfl ?_ rfl
    · exact hfind
    · exact hval
    · exact hver

/-- Claim C5: CODESET round-trip.  A successful `setValue` with code key
X — which in this program is a unified write, the legacy codeset writer
never completing its version construction — followed by `getValue` on the
same (target, item) returns a payload whose resolved code key equals X.
The filter hypotheses instantiate the validation and enrichment lookups:
a unique code row with key X carrying a current version and a codeset. -/
theorem codeset_roundtrip
    (db : MetaDB) (now : Nat) (tt ti ic X : String) (item : CustomMetaItem)
    (c : Code) (cv : CodeVersion) (cs : CodeSet) (a r : Option String)
    (hWF : dbWF db)
    (hkind : get_meta_item_type_kind ic = some .CODESET)
    (hfind : find_item db ic = some item)
    (hkey : db.codes.filter (·.code_key == X) = [c])
    (hc3 : db.codes.filter (fun cd =>
        cd.code_key == X &&
        (match cd.current_version_id with
         | none => false
         | some cvid => !(db.code_versions.filter (·.code_version_id == cvid)).isEmpty) &&
        !(db.codesets.filter (·.codeset_id == cd.codeset_id)).isEmpty) = [c])
    (hcv : db.code_versions.filter
        (fun v => c.current_version_id == some v.code_version_id) = [cv])
    (hcs : db.codesets.filter (·.codeset_id == c.codeset_id) = [cs])
    (hrows : valueRowsFor db tt ti item.item_id = [] ∨
      ∃ mv0, valueRowsFor db tt ti item.item_id = [mv0]) :
    ∃ db' vid,
      set_meta_value_unified db now tt ti ic
        ⟨some "CODESET", none, some X, none, none⟩ a r = .ok db' vid ∧
      get_meta_value_unified db' tt ti ic =
        .ok (some (.codesetDoc (some c.code_id) (some X)
          (some cv.label_default) (some cs.codeset_code))) := by
  have hckey : c.code_key = X := by
    have hc : c ∈ db.codes.filter (·.code_key == X) := by rw [hkey]; simp
    have := List.of_mem_filter hc
    simpa using this
  have hvalid : validate_unified_value_data db
      ⟨some "CODESET", none, some X, none, none⟩ = none := by
    unfold validate_unified_value_data scalar_one_or_none
    dsimp only
    rw [hkey]
    rfl
  have henrich : enrich_value_data db
      ⟨some "CODESET", none, some X, none, none⟩ =
      some (.codesetDoc (some c.code_id) (some c.code_key)
        (some cv.label_default) (some cs.codeset_code)) := by
    unfold enrich_value_data
    simp [hc3, hcv, hcs]
  have hset : set_meta_value_unified db now tt ti ic
      ⟨some "CODESET", none, some X, none, none⟩ a r =
      .ok (write_new_version db now tt ti item
        (some (.codesetDoc (some c.code_id) (some c.code_key)
          (some cv.label_default) (some cs.codeset_code))) a r).1
        (write_new_version db now tt ti item
        (some (.codesetDoc (some c.code_id) (some c.code_key)
          (some cv.label_default) (some cs.codeset_code))) a r).2 := by
    unfold set_meta_value_unified
    rw [hkind, hfind]
    simp [MetaTypeKind.value, hvalid, henrich]
  rw [hckey] at hset
  refine ⟨_, _, hset, ?_⟩
  exact get_after_unified_write db now tt ti ic item
    (.codesetDoc (some c.code_id) (some X)
      (some cv.label_default) (some cs.codeset_code)) a r
    hWF hfind hrows

/-- Witness for C5: writing code key HIGH for pii_level on the demo
database through the unified path and reading it back. -/
theorem codeset_roundtrip_witness :
    ∃ db' vid,
      set_meta_value_unified demoDB 5 "table" "orders" "pii_level"
        ⟨some "CODESET", none, some "HIGH", none, none⟩ none none = .ok db' vid ∧
      get_meta_value_unified db' "table" "orders" "pii_level" =
        .ok (some (.codesetDoc (some 6) (some "HIGH")
          (some "High") (some "PII_LEVEL"))) := by
  exact codeset_roundtrip demoDB 5 "table" "orders" "pii_level" "HIGH"
    ⟨3, "pii_level", "SINGLE"⟩ ⟨6, 5, "HIGH", some 7⟩ ⟨7, 6, "High"⟩ ⟨5, "PII_LEVEL"⟩
    none none
    (by unfold dbWF; decide) (by rfl) (by rfl) (by rfl) (by rfl) (by rfl) (by rfl)
    (Or.inl (by rfl))

/-- Folding max with a seed. -/
theorem foldr_max_init (l : List Nat) (x : Nat) :
    l.foldr max x = max (l.foldr max 0) x := by
  induction l with
  | nil => simp
  | cons y ys ih => simp [List.foldr_cons, ih, Nat.max_assoc]

/-- The maximum of a list extended on the right. -/
theorem maxNo_append (l : List Nat) (x : Nat) :
    maxNo (l ++ [x]) = max (maxNo l) x := by
  unfold maxNo
  rw [List.foldr_append]
  simp only [List.foldr_cons, List.foldr_nil, Nat.max_zero]
  rw [foldr_max_init]

/-- Every element is bounded by the running maximum. -/
theorem le_maxNo (l : List Nat) : ∀ n ∈ l, n ≤ maxNo l := by
  induction l with
  | nil => simp
  | cons x xs ih =>
    intro n hn
    rcases List.mem_cons.mp hn with rfl | hn
    · simp [maxNo]
    · exact le_trans (ih n hn) (by simp [maxNo])

/-- One writer step preserves the lock-protocol invariant. -/
theorem lockInv_step (vs0 : List Nat) (s s' : LockSystem)
    (hinv : lockInv vs0 s) (hstep : LockStep s s') : lockInv vs0 s' := by
  obtain ⟨hLA, hLB, hvs, hRA, hRB, hIA, hIB⟩ := hinv
  cases hstep with
  | acquire i hfree hidle =>
    cases i
    · simp only [LockSystem.phase, Bool.false_eq_true, if_false, if_true] at hidle
      unfold lockInv
      simp only [LockSystem.setPhase, Bool.false_eq_true, if_false, if_true]
      refine ⟨by simp [WriterPhase.holdsLock], ?_, ?_, ?_, ?_, ?_, ?_⟩
      · constructor
        · intro hb
          have hh := hLB.mp hb
          rw [hfree] at hh
          exact absurd hh (by simp)
        · intro hb
          exact absurd hb (by simp)
      · rcases hvs with ⟨h1, h2, h3⟩ | ⟨h1, h2, h3⟩ | ⟨h1, h2, h3⟩ | ⟨h1, h2, h3⟩ | ⟨h1, h2, h3⟩
        · exact Or.inl ⟨rfl, h2, h3⟩
        · rw [hidle] at h1; simp [WriterPhase.insVal] at h1
        · exact Or.inr (Or.inr (Or.inl ⟨h1, rfl, h3⟩))
        · rw [hidle] at h1; simp [WriterPhase.insVal] at h1
        · rw [hidle] at h2; simp [WriterPhase.insVal] at h2
      · intro m hm; simp at hm
      · exact hRB
      · intro n hn; simp at hn
      · exact hIB
    · simp only [LockSystem.phase, Bool.false_eq_true, if_false, if_true] at hidle
      unfold lockInv
      simp only [LockSystem.setPhase, Bool.false_eq_true, if_false, if_true]
      refine ⟨?_, by simp [WriterPhase.holdsLock], ?_, ?_, ?_, ?_, ?_⟩
      · constructor
        · intro hb
          have hh := hLA.mp hb
          rw [hfree] at hh
          exact absurd hh (by simp)
        · intro hb
          exact absurd hb (by simp)
      · rcases hvs with ⟨h1, h2, h3⟩ | ⟨h1, h2, h3⟩ | ⟨h1, h2, h3⟩ | ⟨h1, h2, h3⟩ | ⟨h1, h2, h3⟩
        · exact Or.inl ⟨h1, rfl, h3⟩
        · exact Or.inr (Or.inl ⟨h1, rfl, h3⟩)
        · rw [hidle] at h1; simp [WriterPhase.insVal] at h1
        · rw [hidle] at h2; simp [WriterPhase.insVal] at h2
        · rw [hidle] at h1; simp [WriterPhase.insVal] at h1
      · exact hRA
      · intro m hm; simp at hm
      · exact hIA
      · intro n hn; simp at hn
  | readStep i hold hlock =>
    cases i
    · simp only [LockSystem.phase, Bool.false_eq_true, if_false, if_true] at hlock
      unfold lockInv
      simp only [LockSystem.setPhase, Bool.false_eq_true, if_false, if_true]
      refine ⟨by simp [WriterPhase.holdsLock, hold], hLB, ?_, ?_, ?_, ?_, ?_⟩
      · rcases hvs with ⟨h1, h2, h3⟩ | ⟨h1, h2, h3⟩ | ⟨h1, h2, h3⟩ | ⟨h1, h2, h3⟩ | ⟨h1, h2, h3⟩
        · exact Or.inl ⟨rfl, h2, h3⟩
        · rw [hlock] at h1; simp [WriterPhase.insVal] at h1
        · exact Or.inr (Or.inr (Or.inl ⟨h1, rfl, h3⟩))
        · rw [hlock] at h1; simp [WriterPhase.insVal] at h1
        · rw [hlock] at h2; simp [WriterPhase.insVal] at h2
      · intro m hm
        rw [WriterPhase.readMax.injEq] at hm
        rw [hm]
      · exact hRB
      · intro n hn; simp at hn
      · exact hIB
    · simp only [LockSystem.phase, Bool.false_eq_true, if_false, if_true] at hlock
      unfold lockInv
      simp only [LockSystem.setPhase, Bool.false_eq_true, if_false, if_true]
      refine ⟨hLA, by simp [WriterPhase.holdsLock, hold], ?_, ?_, ?_, ?_, ?_⟩
      · rcases hvs with ⟨h1, h2, h3⟩ | ⟨h1, h2, h3⟩ | ⟨h1, h2, h3⟩ | ⟨h1, h2, h3⟩ | ⟨h1, h2, h3⟩
        · exact Or.inl ⟨h1, rfl, h3⟩
        · exact Or.inr (Or.inl ⟨h1, rfl, h3⟩)
        · rw [hlock] at h1; simp [WriterPhase.insVal] at h1
        · rw [hlock] at h2; simp [WriterPhase.insVal] at h2
        · rw [hlock] at h1; simp [WriterPhase.insVal] at h1
      · exact hRA
      · intro m hm
        rw [WriterPhase.readMax.injEq] at hm
        rw [hm]
      · exact hIA
      · intro n hn; simp at hn
  | insertStep i m hold hread =>
    cases i
    · simp only [LockSystem.phase, Bool.false_eq_true, if_false, if_true] at hread
      have hm := hRA m hread
      have hBnotlock : ¬ s.lockHolder = some true := by rw [hold]; simp
      unfold lockInv
      simp only [LockSystem.setPhase, Bool.false_eq_true, if_false, if_true]
      refine ⟨by simp [WriterPhase.holdsLock, hold], ?_, ?_, ?_, ?_, ?_, ?_⟩
      · constructor
        · intro hb
          exact absurd (hLB.mp hb) hBnotlock
        · intro hb
          exact absurd hb hBnotlock
      · rcases hvs with ⟨h1, h2, h3⟩ | ⟨h1, h2, h3⟩ | ⟨h1, h2, h3⟩ | ⟨h1, h2, h3⟩ | ⟨h1, h2, h3⟩
        · rw [h3] at hm
          subst hm
          exact Or.inr (Or.inl ⟨by simp [WriterPhase.insVal], h2, by rw [h3]⟩)
        · rw [hread] at h1; simp [WriterPhase.insVal] at h1
        · rw [h3, maxNo_append, Nat.max_eq_right (by omega)] at hm
          subst hm
          refine Or.inr (Or.inr (Or.inr (Or.inr ?_)))
          refine ⟨h1, by simp [WriterPhase.insVal], ?_⟩
          rw [h3]
          simp
        · rw [hread] at h1; simp [WriterPhase.insVal] at h1
        · rw [hread] at h2; simp [WriterPhase.insVal] at h2
      · intro m2 hm2; simp at hm2
      · intro m2 hm2
        have hb : s.pB.holdsLock = true := by rw [hm2]; rfl
        exact absurd (hLB.mp hb) hBnotlock
      · intro n hn
        rw [WriterPhase.inserted.injEq] at hn
        rw [← hn, maxNo_append, ← hm, Nat.max_eq_right (by omega)]
      · intro n hn
        have hb : s.pB.holdsLock = true := by rw [hn]; rfl
        exact absurd (hLB.mp hb) hBnotlock
    · simp only [LockSystem.phase, Bool.false_eq_true, if_false, if_true] at hread
      have hm := hRB m hread
      have hAnotlock : ¬ s.lockHolder = some false := by rw [hold]; simp
      unfold lockInv
      simp only [LockSystem.setPhase, Bool.false_eq_true, if_false, if_true]
      refine ⟨?_, by simp [WriterPhase.holdsLock, hold], ?_, ?_, ?_, ?_, ?_⟩
      · constructor
        · intro hb
          exact absurd (hLA.mp hb) hAnotlock
        · intro hb
          exact absurd hb hAnotlock
      · rcases hvs with ⟨h1, h2, h3⟩ | ⟨h1, h2, h3⟩ | ⟨h1, h2, h3⟩ | ⟨h1, h2, h3⟩ | ⟨h1, h2, h3⟩
        · rw [h3] at hm
          subst hm
          exact Or.inr (Or.inr (Or.inl ⟨by simp [WriterPhase.insVal], h1, by rw [h3]⟩))
        · rw [h3, maxNo_append, Nat.max_eq_right (by omega)] at hm
          subst hm
          refine Or.inr (Or.inr (Or.inr (Or.inl ?_)))
          refine ⟨h1, by simp [WriterPhase.insVal], ?_⟩
          rw [h3]
          simp
        · rw [hread] at h1; simp [WriterPhase.insVal] at h1
        · rw [hread] at h2; simp [WriterPhase.insVal] at h2
        · rw [hread] at h1; simp [WriterPhase.insVal] at h1
      · intro m2 hm2
        have hb : s.pA.holdsLock = true := by rw [hm2]; rfl
        exact absurd (hLA.mp hb) hAnotlock
      · intro m2 hm2; simp at hm2
      · intro n hn
        have hb : s.pA.holdsLock = true := by rw [hn]; rfl
        exact absurd (hLA.mp hb) hAnotlock
      · intro n hn
        rw [WriterPhase.inserted.injEq] at hn
        rw [← hn, maxNo_append, ← hm, Nat.max_eq_right (by omega)]
  | commitStep i n hold hins =>
    cases i
    · simp only [LockSystem.phase, Bool.false_eq_true, if_false, if_true] at hins
      have hBnotlock : ¬ s.lockHolder = some true := by rw [hold]; simp
      unfold lockInv
      simp only [LockSystem.setPhase, Bool.false_eq_true, if_false, if_true]
      refine ⟨by simp [WriterPhase.holdsLock], ?_, ?_, ?_, ?_, ?_, ?_⟩
      · constructor
        · intro hb
          exact absurd (hLB.mp hb) hBnotlock
        · intro hb
          exact absurd hb (by simp)
      · rcases hvs with ⟨h1, h2, h3⟩ | ⟨h1, h2, h3⟩ | ⟨h1, h2, h3⟩ | ⟨h1, h2, h3⟩ | ⟨h1, h2, h3⟩
        · rw [hins] at h1; simp [WriterPhase.insVal] at h1
        · rw [hins] at h1
          exact Or.inr (Or.inl ⟨h1, h2, h3⟩)
        · rw [hins] at h2; simp [WriterPhase.insVal] at h2
        · rw [hins] at h1
          exact Or.inr (Or.inr (Or.inr (Or.inl ⟨h1, h2, h3⟩)))
        · rw [hins] at h2
          exact Or.inr (Or.inr (Or.inr (Or.inr ⟨h1, h2, h3⟩)))
      · intro m2 hm2; simp at hm2
      · exact hRB
      · intro n2 hn2; simp at hn2
      · exact hIB
    · simp only [LockSystem.phase, Bool.false_eq_true, if_false, if_true] at hins
      have hAnotlock : ¬ s.lockHolder = some false := by rw [hold]; simp
      unfold lockInv
      simp only [LockSystem.setPhase, Bool.false_eq_true, if_false, if_true]
      refine ⟨?_, by simp [WriterPhase.holdsLock], ?_, ?_, ?_, ?_, ?_⟩
      · constructor
        · intro hb
          exact absurd (hLA.mp hb) hAnotlock
        · intro hb
          exact absurd hb (by simp)
      · rcases hvs with ⟨h1, h2, h3⟩ | ⟨h1, h2, h3⟩ | ⟨h1, h2, h3⟩ | ⟨h1, h2, h3⟩ | ⟨h1, h2, h3⟩
        · rw [hins] at h2; simp [WriterPhase.insVal] at h2
        · rw [hins] at h2; simp [WriterPhase.insVal] at h2
        · rw [hins] at h1
          exact Or.inr (Or.inr (Or.inl ⟨h1, h2, h3⟩))
        · rw [hins] at h2
          exact Or.inr (Or.inr (Or.inr (Or.inl ⟨h1, h2, h3⟩)))
        · rw [hins] at h1
          exact Or.inr (Or.inr (Or.inr (Or.inr ⟨h1, h2, h3⟩)))
      · exact hRA
      · intro m2 hm2; simp at hm2
      · exact hIA
      · intro n2 hn2; simp at hn2

theorem lockInv_init (vs0 : List Nat) : lockInv vs0 (lockInit vs0) := by
  unfold lockInv lockInit
  refine ⟨by simp [WriterPhase.holdsLock], by simp [WriterPhase.holdsLock], ?_, ?_, ?_, ?_, ?_⟩
  · exact Or.inl ⟨rfl, rfl, rfl⟩
  · intro m hm; simp at hm
  · intro m hm; simp at hm
  · intro n hn; simp at hn
  · intro n hn; simp at hn

theorem lockInv_reach (vs0 : List Nat) (s : LockSystem)
    (h : LockReach (lockInit vs0) s) : lockInv vs0 s := by
  unfold LockReach at h
  induction h with
  | refl => exact lockInv_init vs0
  | tail h1 h2 ih => exact lockInv_step vs0 _ _ ih h2

theorem nodup_snoc_two (l : List Nat) (hnd : l.Nodup) :
    (l ++ [maxNo l + 1, maxNo l + 2]).Nodup := by
  rw [List.nodup_append]
  refine ⟨hnd, by simp, ?_⟩
  intro a ha hmem
  have hle := le_maxNo l a ha
  simp at hmem
  rcases hmem with h | h <;> omega

/-- Claim C3: in the two-writer lock protocol, from any initial version
list, once both writers have committed, the two new version numbers are
`max + 1` and `max + 2` in some order — in particular they are distinct —
the version list is the initial one extended by exactly those two rows,
and a duplicate-free version list stays duplicate-free: serialization on
the entity-row lock prevents two writers from computing the same number. -/
theorem concurrent_writers_get_distinct_numbers
    (vs0 : List Nat) (s : LockSystem) (nA nB : Nat)
    (hreach : LockReach (lockInit vs0) s)
    (hA : s.pA = .committed nA) (hB : s.pB = .committed nB) :
    ((nA = maxNo vs0 + 1 ∧ nB = maxNo vs0 + 2) ∨
     (nB = maxNo vs0 + 1 ∧ nA = maxNo vs0 + 2)) ∧
    nA ≠ nB ∧
    s.version_nos = vs0 ++ [maxNo vs0 + 1, maxNo vs0 + 2] ∧
    (vs0.Nodup → s.version_nos.Nodup) := by
  obtain ⟨hLA, hLB, hvs, hRA, hRB, hIA, hIB⟩ := lockInv_reach vs0 s hreach
  have hAv : s.pA.insVal = some nA := by rw [hA]; rfl
  have hBv : s.pB.insVal = some nB := by rw [hB]; rfl
  rcases hvs with ⟨h1, h2, h3⟩ | ⟨h1, h2, h3⟩ | ⟨h1, h2, h3⟩ | ⟨h1, h2, h3⟩ | ⟨h1, h2, h3⟩
  · rw [hAv] at h1; simp at h1
  · rw [hBv] at h2; simp at h2
  · rw [hAv] at h2; simp at h2
  · rw [hAv] at h1
    rw [hBv] at h2
    rw [Option.some.injEq] at h1 h2
    refine ⟨Or.inl ⟨h1, h2⟩, by omega, h3, ?_⟩
    intro hnd
    rw [h3]
    exact nodup_snoc_two vs0 hnd
  · rw [hBv] at h1
    rw [hAv] at h2
    rw [Option.some.injEq] at h1 h2
    refine ⟨Or.inr ⟨h1, h2⟩, by omega, h3, ?_⟩
    intro hnd
    rw [h3]
    exact nodup_snoc_two vs0 hnd

/-- A concrete interleaving: writer A acquires, reads max 1, inserts 2 and
commits, then writer B acquires, reads max 2, inserts 3 and commits. -/
theorem concurrent_writers_get_distinct_numbers_witness :
    ((2 = maxNo [1] + 1 ∧ 3 = maxNo [1] + 2) ∨
     (3 = maxNo [1] + 1 ∧ 2 = maxNo [1] + 2)) ∧
    (2 : Nat) ≠ 3 ∧
    ({ lockHolder := none, pA := .committed 2, pB := .committed 3,
       version_nos := [1, 2, 3] } : LockSystem).version_nos
      = [1] ++ [maxNo [1] + 1, maxNo [1] + 2] ∧
    (([1] : List Nat).Nodup →
      ({ lockHolder := none, pA := .committed 2, pB := .committed 3,
         version_nos := [1, 2, 3] } : LockSystem).version_nos.Nodup) := by
  have t : LockReach (lockInit [1])
      { lockHolder := none, pA := .committed 2, pB := .committed 3,
        version_nos := [1, 2, 3] } := by
    refine Relation.ReflTransGen.head (LockStep.acquire _ false (by decide) (by decide)) ?_
    refine Relation.ReflTransGen.head (LockStep.readStep _ false (by decide) (by decide)) ?_
    refine Relation.ReflTransGen.head (LockStep.insertStep _ false 1 (by decide) (by decide)) ?_
    refine Relation.ReflTransGen.head (LockStep.commitStep _ false 2 (by decide) (by decide)) ?_
    refine Relation.ReflTransGen.head (LockStep.acquire _ true (by decide) (by decide)) ?_
    refine Relation.ReflTransGen.head (LockStep.readStep _ true (by decide) (by decide)) ?_
    refine Relation.ReflTransGen.head (LockStep.insertStep _ true 2 (by decide) (by decide)) ?_
    refine Relation.ReflTransGen.head (LockStep.commitStep _ true 3 (by decide) (by decide)) ?_
    exact Relation.ReflTransGen.refl
  exact concurrent_writers_get_distinct_numbers [1] _ 2 3 t rfl rfl

/-- Claim C2: every `setValue` variant that fails with a validation error
leaves the persistent state exactly as it was: the error branch of each
service function carries the unmodified database, so the entity version
count and current pointer are unchanged and no version row is created. -/
theorem failed_setValue_leaves_state_unchanged
    (db : MetaDB) (now : Nat) (tt ti ic : String) :
    (∀ p s m db', set_meta_value_primitive db now tt ti ic p = .err s m db' → db' = db) ∧
    (∀ p s m db', set_meta_value_string db now tt ti ic p = .err s m db' → db' = db) ∧
    (∀ p s m db', set_meta_value_codeset db now tt ti ic p = .err s m db' → db' = db) ∧
    (∀ p s m db', set_meta_value_taxonomy_single db now tt ti ic p = .err s m db' → db' = db) ∧
    (∀ p s m db', set_meta_value_taxonomy_multi db now tt ti ic p = .err s m db' → db' = db) ∧
    (∀ vd a r s m db', set_meta_value_unified db now tt ti ic vd a r = .err s m db' → db' = db) := by
  refine ⟨?_, ?_, ?_, ?_, ?_, ?_⟩
  · intro p s m db' h
    unfold set_meta_value_primitive at h
    repeat' split at h
    all_goals simp_all
  · intro p s m db' h
    unfold set_meta_value_string at h
    repeat' split at h
    all_goals simp_all
  · intro p s m db' h
    unfold set_meta_value_codeset at h
    repeat' split at h
    all_goals simp_all
  · intro p s m db' h
    unfold set_meta_value_taxonomy_single at h
    repeat' split at h
    all_goals simp_all
  · intro p s m db' h
    unfold set_meta_value_taxonomy_multi at h
    repeat' split at h
    all_goals simp_all
  · intro vd a r s m db' h
    unfold set_meta_value_unified at h
    repeat' split at h
    all_goals simp_all

/-- Witness for C2: a codeset write with an unresolvable code key is
rejected with status 400 and the database it reports is the input
database itself. -/
theorem failed_setValue_leaves_state_unchanged_witness :
    set_meta_value_codeset demoDB 5 "table" "orders" "pii_level"
      ⟨"NOPE", none, none⟩ = .err 400 "invalid code for codeset" demoDB ∧
    demoDB = demoDB := by
  refine ⟨by rfl, ?_⟩
  exact (failed_setValue_leaves_state_unchanged demoDB 5 "table" "orders" "pii_level").2.2.1
    ⟨"NOPE", none, none⟩ 400 "invalid code for codeset" demoDB (by rfl)

/-- Closing preserves the (primary key, version number) projection: the
close-previous block never adds, removes or renumbers a version row. -/
theorem close_current_pair_map (vs : List CustomMetaValueVersion)
    (cur : Option Nat) (now : Nat) :
    (close_current vs cur now).map (fun v => (v.version_id, v.version_no)) =
      vs.map (fun v => (v.version_id, v.version_no)) := by
  cases cur with
  | none => rfl
  | some pv =>
    unfold close_current
    exact map_map_eq_of_comp _ _ (fun a => by split <;> rfl) vs

/-- Claim C4: selection-mode and cardinality enforcement for TAXONOMY
writes.  The legacy writers reject a selection-mode mismatch in both
directions with a 400, and the unified validator rejects a SINGLE write
without exactly one term key and a MULTI write with zero term keys.  The
legacy MULTI path has no empty-list validation of its own, yet it still
never accepts an empty term list: like every legacy write it fails at
version construction (TypeError on the undeclared `value_json_v2`
keyword), and the session state as of the raise contains no new version
row. -/
theorem selection_mode_enforcement
    (db : MetaDB) (now : Nat) (tt ti ic : String) (item : CustomMetaItem) :
    (∀ p, get_meta_item_type_kind ic = some .TAXONOMY → find_item db ic = some item →
      item.selection_mode ≠ "SINGLE" →
      set_meta_value_taxonomy_single db now tt ti ic p =
        .err 400 ("item " ++ ic ++ " selection_mode must be SINGLE") db) ∧
    (∀ p, get_meta_item_type_kind ic = some .TAXONOMY → find_item db ic = some item →
      item.selection_mode ≠ "MULTI" →
      set_meta_value_taxonomy_multi db now tt ti ic p =
        .err 400 ("item " ++ ic ++ " selection_mode must be MULTI") db) ∧
    (∀ vd ks, vd.type_tag = some "TAXONOMY" → vd.term_keys = some ks →
      vd.selection_mode.getD "SINGLE" = "SINGLE" → ks.length ≠ 1 →
      validate_unified_value_data db vd =
        some (400, "SINGLE selection mode requires exactly one term_key")) ∧
    (∀ vd, vd.type_tag = some "TAXONOMY" → vd.term_keys = some [] →
      vd.selection_mode.getD "SINGLE" = "MULTI" →
      validate_unified_value_data db vd =
        some (400, "MULTI selection mode requires at least one term_key")) ∧
    (∀ a r, get_meta_item_type_kind ic = some .TAXONOMY → find_item db ic = some item →
      item.selection_mode = "MULTI" →
      set_meta_value_taxonomy_multi db now tt ti ic ⟨[], a, r⟩ =
        .crash "TypeError: value_json_v2 is an invalid keyword argument for CustomMetaValueVersion"
          (legacy_write_tail db now tt ti item) ∧
      (legacy_write_tail db now tt ti item).versions.map
          (fun v => (v.version_id, v.version_no)) =
        db.versions.map (fun v => (v.version_id, v.version_no))) := by
  refine ⟨?_, ?_, ?_, ?_, ?_⟩
  · intro p h1 h2 h3
    simp [set_meta_value_taxonomy_single, h1, h2, h3]
  · intro p h1 h2 h3
    simp [set_meta_value_taxonomy_multi, h1, h2, h3]
  · intro vd ks h1 h2 h3 h4
    simp [validate_unified_value_data, h1, h2, h3, h4]
  · intro vd h1 h2 h3
    simp [validate_unified_value_data, h1, h2, h3]
  · intro a r h1 h2 h3
    constructor
    · simp [set_meta_value_taxonomy_multi, h1, h2, h3, resolve_terms]
    · unfold legacy_write_tail ensure_value_row
      cases hsc : scalar_one_or_none
          (fun mv => mv.target_type == tt && mv.target_id == ti &&
            mv.item_id == item.item_id) db.values with
      | none =>
        dsimp only
        exact close_current_pair_map _ _ _
      | some mv0 =>
        dsimp only
        exact close_current_pair_map _ _ _

/-- Witness for C4: on the demo database a SINGLE-configured item rejects
a MULTI-path write, and on the MULTI-configured variant the empty-list
MULTI write fails at version construction, adding no version row. -/
theorem selection_mode_enforcement_witness :
    set_meta_value_taxonomy_multi demoDB 7 "table" "orders" "domain"
      ⟨["finance"], none, none⟩ =
      .err 400 "item domain selection_mode must be MULTI" demoDB ∧
    set_meta_value_taxonomy_multi demoMultiDB 7 "table" "orders" "domain"
      ⟨[], none, none⟩ =
      .crash "TypeError: value_json_v2 is an invalid keyword argument for CustomMetaValueVersion"
        (legacy_write_tail demoMultiDB 7 "table" "orders" ⟨4, "domain", "MULTI"⟩) ∧
    (legacy_write_tail demoMultiDB 7 "table" "orders" ⟨4, "domain", "MULTI"⟩).versions.map
        (fun v => (v.version_id, v.version_no)) =
      demoMultiDB.versions.map (fun v => (v.version_id, v.version_no)) := by
  refine ⟨?_, ?_, ?_⟩
  · exact (selection_mode_enforcement demoDB 7 "table" "orders" "domain"
      ⟨4, "domain", "SINGLE"⟩).2.1 ⟨["finance"], none, none⟩ (by rfl) (by rfl) (by decide)
  · exact ((selection_mode_enforcement demoMultiDB 7 "table" "orders" "domain"
      ⟨4, "domain", "MULTI"⟩).2.2.2.2 none none (by rfl) (by rfl) rfl).1
  · exact ((selection_mode_enforcement demoMultiDB 7 "table" "orders" "domain"
      ⟨4, "domain", "MULTI"⟩).2.2.2.2 none none (by rfl) (by rfl) rfl).2

/-- Counterexample for C6: a call with `required` propagation and
`read_only = true` that runs while a transaction is active does not join
it; it creates (and later closes) a brand-new session. -/
theorem required_read_only_does_not_join :
    (transactional_run .required true (some 0) 1 true).created_here = true ∧
    (transactional_run .required true (some 0) 1 true).used_session = 1 ∧
    (transactional_run .required true (some 0) 1 true).actions =
      [.createSession 1, .rollbackTx 1, .closeTx 1] := by
  exact ⟨rfl, rfl, rfl⟩

/-- Claim C6 (amended): under `required` propagation with
`read_only = false`, a call with an active ambient transaction joins it
(no new session is created and the joined session is used); and in every
configuration, a commit or close of a session is performed only by a call
that created its session, and only on that session. -/
theorem required_joins_and_owner_only_finalizes
    (p : Propagation) (ro : Bool) (ex : Option Nat) (fresh : Nat) (ok : Bool) :
    (∀ s, p = .required → ro = false → ex = some s →
      (transactional_run p ro ex fresh ok).created_here = false ∧
      (transactional_run p ro ex fresh ok).used_session = s) ∧
    (∀ a, (TxAction.commitTx a ∈ (transactional_run p ro ex fresh ok).actions ∨
           TxAction.closeTx a ∈ (transactional_run p ro ex fresh ok).actions) →
      (transactional_run p ro ex fresh ok).created_here = true ∧
      a = (transactional_run p ro ex fresh ok).used_session) := by
  constructor
  · intro s hp hro hex
    subst hp; subst hro; subst hex
    simp [transactional_run]
  · intro a h
    cases p <;> cases ro <;> cases ex <;> cases ok <;> simp_all [transactional_run]

/-- Witness for C6 (amended): a plain `required` call joining session 0. -/
theorem required_joins_witness :
    (transactional_run .required false (some 0) 1 true).created_here = false ∧
    (transactional_run .required false (some 0) 1 true).used_session = 0 := by
  exact (required_joins_and_owner_only_finalizes .required false (some 0) 1 true).1
    0 rfl rfl rfl

/-- Counterexample for C7: a `read_only = true` call under `nested`
propagation joining an active transaction finishes a successful body with
a savepoint release only: no rollback (and no commit) is issued, so its
staged writes stay in the outer transaction. -/
theorem nested_read_only_success_no_rollback :
    (transactional_run .nested true (some 0) 1 true).actions =
      [.beginNested 0, .releaseSavepoint 0] ∧
    TxAction.rollbackTx 0 ∉ (transactional_run .nested true (some 0) 1 true).actions ∧
    (transactional_run .nested true (some 0) 1 true).raised = false := by
  refine ⟨rfl, by decide, rfl⟩

/-- Claim C7 (amended): a `read_only` call never commits, and whenever
the call owns its session (every case except `nested` joining an active
transaction) a successful body ends with a rollback of that session. -/
theorem read_only_never_commits
    (p : Propagation) (ro : Bool) (ex : Option Nat) (fresh : Nat) (ok : Bool) :
    ro = true →
    (∀ a, TxAction.commitTx a ∉ (transactional_run p ro ex fresh ok).actions) ∧
    (ok = true → (transactional_run p ro ex fresh ok).created_here = true →
      TxAction.rollbackTx (transactional_run p ro ex fresh ok).used_session ∈
        (transactional_run p ro ex fresh ok).actions) := by
  intro hro
  subst hro
  cases p <;> cases ex <;> cases ok <;> simp [transactional_run]

/-- Witness for C7 (amended): a `requires_new` read-only call rolls back
and never commits. -/
theorem read_only_never_commits_witness :
    (∀ a, TxAction.commitTx a ∉ (transactional_run .requires_new true (some 0) 1 true).actions) ∧
    TxAction.rollbackTx (transactional_run .requires_new true (some 0) 1 true).used_session ∈
      (transactional_run .requires_new true (some 0) 1 true).actions := by
  refine ⟨(read_only_never_commits .requires_new true (some 0) 1 true rfl).1, ?_⟩
  exact (read_only_never_commits .requires_new true (some 0) 1 true rfl).2 rfl rfl

/-- Claim C10: every `transactional` call restores the ambient context
variable to its prior value on exit (normal or raising), and a call that
created its own session always closes it, so the caller never observes a
binding to the callee's session. -/
theorem transactional_restores_context_and_closes
    (p : Propagation) (ro : Bool) (ex : Option Nat) (fresh : Nat) (ok : Bool) :
    (transactional_run p ro ex fresh ok).ambient_after = ex ∧
    ((transactional_run p ro ex fresh ok).created_here = true →
      TxAction.closeTx (transactional_run p ro ex fresh ok).used_session ∈
        (transactional_run p ro ex fresh ok).actions) := by
  cases p <;> cases ro <;> cases ex <;> cases ok <;> simp [transactional_run]

/-- Witness for C10: a raising owner call still closes its session and
restores the context, leaving the ambient binding at its prior value. -/
theorem transactional_restores_context_witness :
    (transactional_run .required false none 7 false).ambient_after = none ∧
    TxAction.closeTx (transactional_run .required false none 7 false).used_session ∈
      (transactional_run .required false none 7 false).actions := by
  refine ⟨(transactional_restores_context_and_closes .required false none 7 false).1, ?_⟩
  exact (transactional_restores_context_and_closes .required false none 7 false).2 (by decide)

/-- Counterexample for C8: the service-level read path returns plain
absence, not an ItemNotFound failure, for an item code that is missing
from the Type Registry and the item table; the very same `none` is what
it returns when the item exists but no value has been set, so the two
situations are indistinguishable to the caller. -/
theorem getValue_unknown_item_is_silent_absent :
    get_meta_item_type_kind "mystery" = none ∧
    get_meta_value_unified demoDB "table" "orders" "mystery" = .ok none ∧
    get_meta_value_unified demoDB "table" "orders" "pii_level" = .ok none := by
  exact ⟨rfl, rfl, rfl⟩

/-- Claim C8 (amended): every `setValue` variant fails with the 404
ItemNotFound error when the item code is absent from the Type Registry,
but the service-level `getValue` returns absent (`None`) rather than an
error when the item code has no item row. -/
theorem unknown_item_code_handling
    (db : MetaDB) (now : Nat) (tt ti ic : String)
    (h : get_meta_item_type_kind ic = none) :
    (∀ p, set_meta_value_primitive db now tt ti ic p =
      .err 404 ("meta item not found: " ++ ic) db) ∧
    (∀ p, set_meta_value_string db now tt ti ic p =
      .err 404 ("meta item not found: " ++ ic) db) ∧
    (∀ p, set_meta_value_codeset db now tt ti ic p =
      .err 404 ("meta item not found: " ++ ic) db) ∧
    (∀ p, set_meta_value_taxonomy_single db now tt ti ic p =
      .err 404 ("meta item not found: " ++ ic) db) ∧
    (∀ p, set_meta_value_taxonomy_multi db now tt ti ic p =
      .err 404 ("meta item not found: " ++ ic) db) ∧
    (∀ vd a r, set_meta_value_unified db now tt ti ic vd a r =
      .err 404 ("meta item not found: " ++ ic) db) ∧
    (find_item db ic = none → get_meta_value_unified db tt ti ic = .ok none) := by
  refine ⟨?_, ?_, ?_, ?_, ?_, ?_, ?_⟩
  · intro p; simp [set_meta_value_primitive, h]
  · intro p; simp [set_meta_value_string, h]
  · intro p; simp [set_meta_value_codeset, h]
  · intro p; simp [set_meta_value_taxonomy_single, h]
  · intro p; simp [set_meta_value_taxonomy_multi, h]
  · intro vd a r; simp [set_meta_value_unified, h]
  · intro hf; simp [get_meta_value_unified, hf]

/-- Witness for C8 (amended): the unknown item code `mystery` on the demo
database. -/
theorem unknown_item_code_handling_witness :
    set_meta_value_string demoDB 5 "table" "orders" "mystery" ⟨"x", none, none⟩ =
      .err 404 "meta item not found: mystery" demoDB ∧
    get_meta_value_unified demoDB "table" "orders" "mystery" = .ok none := by
  refine ⟨?_, ?_⟩
  · exact (unknown_item_code_handling demoDB 5 "table" "orders" "mystery" (by rfl)).2.1
      ⟨"x", none, none⟩
  · exact (unknown_item_code_handling demoDB 5 "table" "orders" "mystery" (by rfl)).2.2.2.2.2.2
      (by rfl)

end MetaHub
